import Mathlib

/-!
Verification development for the language-profile-driven code analyzer
(`src/core/language_profiles.py` of the Prototype-ide repository).

The Python code is shallowly embedded:

* Python dicts become association lists (`List (κ × β)`) with dict
  semantics: `dictInsert` replaces in place when the key is present
  (preserving insertion order, as Python dicts do) and appends otherwise;
  `dictLookup` returns the first binding.
* Compiled regular expressions are external to the source (the `re`
  module), so they are modelled as abstract functions: a trigger pattern
  is `String → Bool` (`pattern.search` viewed as a test), a
  definition/symbol pattern is `String → Option MatchRes` where
  `MatchRes` models the groups `1 .. lastindex` of an `re.Match`
  (`none` entries are groups that did not participate), and a
  syntax-token pattern is `String → List (Nat × Nat)` (the spans
  produced by `pattern.finditer`).  A pattern slot that failed to
  compile is `none`, mirroring `_safe_compile`.
* `hashlib.md5` is likewise external; the line hash is an abstract
  parameter `hash : String → String`.
* Python float ratios (`0.4`, `0.15`) are modelled exactly in `ℚ`.
* The scope stack (a Python list with append/pop at the end) is stored
  top-first: Python's `stack[-1]` is `head`, `append` is `cons`.
  The Python bottom of the stack is the `getLast?` of the Lean list.
-/

/-! ## Dict (association list) primitives -/

/-- Dict lookup: first binding for the key (Python dicts have unique keys;
on lists with duplicated keys this picks the first, which is what every
theorem below uses consistently). -/
def dictLookup {κ β : Type} [DecidableEq κ] : List (κ × β) → κ → Option β
  | [], _ => none
  | (k', v) :: rest, k => if k' = k then some v else dictLookup rest k

/-- Dict update: replace in place when present, append otherwise
(mirrors Python dict assignment, which preserves insertion order). -/
def dictInsert {κ β : Type} [DecidableEq κ] : List (κ × β) → κ → β → List (κ × β)
  | [], k, v => [(k, v)]
  | (k', v') :: rest, k, v =>
      if k' = k then (k, v) :: rest else (k', v') :: dictInsert rest k v

theorem dictLookup_insert_self {κ β : Type} [DecidableEq κ]
    (m : List (κ × β)) (k : κ) (v : β) : dictLookup (dictInsert m k v) k = some v := by
  induction m with
  | nil => simp [dictInsert, dictLookup]
  | cons hd tl ih =>
      obtain ⟨k', v'⟩ := hd
      by_cases h : k' = k
      · simp [dictInsert, dictLookup, h]
      · simp [dictInsert, dictLookup, h, ih]

theorem dictLookup_insert_ne {κ β : Type} [DecidableEq κ]
    (m : List (κ × β)) (k k' : κ) (v : β) (h : k ≠ k') :
    dictLookup (dictInsert m k v) k' = dictLookup m k' := by
  induction m with
  | nil => simp [dictInsert, dictLookup, h]
  | cons hd tl ih =>
      obtain ⟨k0, v0⟩ := hd
      by_cases h0 : k0 = k
      · subst h0
        simp [dictInsert, dictLookup, h]
      · simp only [dictInsert, if_neg h0]
        by_cases h1 : k0 = k'
        · simp [dictLookup, h1]
        · simp [dictLookup, h1, ih]

theorem dictLookup_eq_none_of_not_mem_keys {κ β : Type} [DecidableEq κ]
    (m : List (κ × β)) (k : κ) (h : k ∉ m.map Prod.fst) : dictLookup m k = none := by
  induction m with
  | nil => rfl
  | cons hd tl ih =>
      obtain ⟨k0, v0⟩ := hd
      simp only [List.map_cons, List.mem_cons, not_or] at h
      have hk : ¬ k0 = k := fun hk => h.1 hk.symm
      simp [dictLookup, hk, ih h.2]

theorem dictLookup_mem {κ β : Type} [DecidableEq κ]
    (m : List (κ × β)) (k : κ) (v : β) (h : dictLookup m k = some v) : (k, v) ∈ m := by
  induction m with
  | nil => simp [dictLookup] at h
  | cons hd tl ih =>
      obtain ⟨k0, v0⟩ := hd
      rw [dictLookup] at h
      split at h
      · next heq =>
          obtain rfl := heq
          obtain rfl : v0 = v := Option.some.inj h
          exact List.mem_cons_self _ _
      · exact List.mem_cons_of_mem _ (ih h)

theorem dictLookup_of_mem_nodup {κ β : Type} [DecidableEq κ]
    (m : List (κ × β)) (k : κ) (v : β) (hnd : (m.map Prod.fst).Nodup)
    (h : (k, v) ∈ m) : dictLookup m k = some v := by
  induction m with
  | nil => simp at h
  | cons hd tl ih =>
      obtain ⟨k0, v0⟩ := hd
      simp only [List.map_cons, List.nodup_cons] at hnd
      rcases List.mem_cons.mp h with heq | hmem
      · obtain ⟨rfl, rfl⟩ := Prod.mk.injEq .. ▸ heq
        simp [dictLookup]
      · have hk : k0 ≠ k := by
          rintro rfl
          exact hnd.1 (List.mem_map.mpr ⟨(k0, v), hmem, rfl⟩)
        simp [dictLookup, hk, ih hnd.2 hmem]

/-! ## String helpers mirroring the Python string operations used -/

/-- `line.lstrip()`: drop leading whitespace. -/
def lstrip (s : String) : String := ⟨s.toList.dropWhile Char.isWhitespace⟩

/-- `s.strip()`: drop leading and trailing whitespace. -/
def pystrip (s : String) : String :=
  ⟨((s.toList.dropWhile Char.isWhitespace).reverse.dropWhile Char.isWhitespace).reverse⟩

/-- `current_indent = len(line_text) - len(line_text.lstrip())`. -/
def indentOf (s : String) : Nat := s.toList.length - (lstrip s).toList.length

/-- `not line_text.strip()`: the line is blank / whitespace-only. -/
def isBlankLine (s : String) : Bool := pystrip s = ""

/-- `s.isdigit()` (restricted to ASCII digits, which is what the numeric
guard in `_handle_definition` / `_handle_symbol` is for). -/
def isDigitStr (s : String) : Bool := s ≠ "" && s.toList.all Char.isDigit

/-- Splitting a character list at every occurrence of `c`, keeping empty
pieces (the semantics of Python's `str.split` with an explicit one-char
separator). -/
def splitOnChar (c : Char) : List Char → List (List Char)
  | [] => [[]]
  | x :: rest =>
      let r := splitOnChar c rest
      if x = c then [] :: r
      else
        match r with
        | [] => [[x]]
        | h :: t => (x :: h) :: t

/-- `text.split('\n')`. -/
def pySplitLines (s : String) : List String :=
  (splitOnChar (Char.ofNat 10) s.toList).map fun l => ⟨l⟩

/-- `language.lower()` (ASCII case folding, which covers the registered
profile names). -/
def pyLower (s : String) : String := ⟨s.toList.map Char.toLower⟩

/-- `_parse_parameters`: split on commas, strip, keep non-empty pieces. -/
def parseParameters (paramsStr : String) : List String :=
  if paramsStr = "" then []
  else (paramsStr.splitOn ",").filterMap fun param =>
    let t := pystrip param
    if t = "" then none else some t

/-! ## Data model -/

/-- A metadata value: the code stores strings (`parent_name`,
`parent_type`) and one pair (`defined_in`). -/
inductive MetaVal : Type
  | str (v : String)
  | pair (a b : String)
deriving DecidableEq, Repr

/-- A metadata dict. -/
abbrev Metadata := List (String × MetaVal)

/-- `SymbolInfo`: one symbol record in the symbol table. -/
structure SymbolInfo : Type where
  name : String
  symbolType : String
  scope : Nat
  line_num : Nat
  metadata : Metadata
deriving DecidableEq, Repr

/-- One scope's symbol dict, keyed by symbol name. -/
abbrev ScopeMap := List (String × SymbolInfo)

/-- `SymbolTable`: a dict of scope id → scope symbol dict. -/
structure SymbolTable : Type where
  symbols : List (Nat × ScopeMap)
deriving DecidableEq, Repr

namespace SymbolTable

/-- `SymbolTable()`. -/
def empty : SymbolTable := ⟨[]⟩

/-- `clear()`. -/
def clear (_t : SymbolTable) : SymbolTable := ⟨[]⟩

/-- `enter_scope(scope_id)`: ensure the scope's dict exists. -/
def enterScope (t : SymbolTable) (scopeId : Nat) : SymbolTable :=
  if (dictLookup t.symbols scopeId).isSome then t
  else ⟨dictInsert t.symbols scopeId []⟩

/-- `add_symbol(name, symbol_type, scope_id, line_num, metadata)`.
`metadata.copy()` is value semantics here: the record stores the value of
the metadata argument at call time. -/
def addSymbol (t : SymbolTable) (name symbolType : String)
    (scopeId lineNum : Nat) (metadata : Metadata) : SymbolTable :=
  let base := if (dictLookup t.symbols scopeId).isSome then t.symbols
              else dictInsert t.symbols scopeId []
  let scopeMap := (dictLookup base scopeId).getD []
  match dictLookup scopeMap name with
  | some existing =>
      if existing.line_num = lineNum then ⟨base⟩
      else ⟨dictInsert base scopeId
              (dictInsert scopeMap name ⟨name, symbolType, scopeId, lineNum, metadata⟩)⟩
  | none => ⟨dictInsert base scopeId
              (dictInsert scopeMap name ⟨name, symbolType, scopeId, lineNum, metadata⟩)⟩

/-- Negation of the removal condition
`start_line <= symbol_info.get('line_num', -1) < end_line`
(the record always carries its `line_num` field, so the `-1` default for
malformed records has no counterpart). -/
def keepSymbol (startLine endLine : Nat) (q : String × SymbolInfo) : Bool :=
  !(decide (startLine ≤ q.2.line_num) && decide (q.2.line_num < endLine))

/-- `remove_symbols_in_range(start_line, end_line)`: filter each scope,
then drop scopes whose dict is empty afterwards (`if not symbols_in_scope:
del self.symbols[scope_id]`). -/
def removeSymbolsInRange (t : SymbolTable) (startLine endLine : Nat) : SymbolTable :=
  ⟨(t.symbols.map fun p => (p.1, p.2.filter (keepSymbol startLine endLine))).filter
    fun p => !p.2.isEmpty⟩

/-- Observer: the record stored for `name` in scope `scope_id`
(`get_symbols_in_scope(scope_id).get(name)`). -/
def lookupSymbol (t : SymbolTable) (scopeId : Nat) (name : String) : Option SymbolInfo :=
  dictLookup ((dictLookup t.symbols scopeId).getD []) name

/-- `get_symbols_in_scope(scope_id)`. -/
def getSymbolsInScope (t : SymbolTable) (scopeId : Nat) : ScopeMap :=
  (dictLookup t.symbols scopeId).getD []

/-- Name-order relation used by `get_visible_symbols`'s
`sorted(..., key=lambda x: x.name)`. -/
def nameLe (a b : SymbolInfo) : Prop := a.name ≤ b.name

instance : DecidableRel nameLe := fun a b => by unfold nameLe; infer_instance

instance : IsTotal SymbolInfo nameLe := ⟨fun a b => le_total a.name b.name⟩

instance : IsTrans SymbolInfo nameLe := ⟨fun _ _ _ h1 h2 => le_trans h1 h2⟩

/-- Inner loop of `get_visible_symbols`: `if symbol_name not in
visible_symbols: visible_symbols[symbol_name] = symbol_info`. -/
def visibleInsertScope (acc : List (String × SymbolInfo)) (m : ScopeMap) :
    List (String × SymbolInfo) :=
  m.foldl (fun acc2 p =>
    if (dictLookup acc2 p.1).isSome then acc2 else dictInsert acc2 p.1 p.2) acc

/-- One scope of the `reversed(scope_stack)` loop of
`get_visible_symbols` (`if scope_id in self.symbols`). -/
def visibleStep (t : SymbolTable) (acc : List (String × SymbolInfo)) (scopeId : Nat) :
    List (String × SymbolInfo) :=
  match dictLookup t.symbols scopeId with
  | some m => visibleInsertScope acc m
  | none => acc

/-- `get_visible_symbols(scope_stack)` (the stack is given in source
order, innermost scope last; the code iterates `reversed(scope_stack)`
and the first definition of a name wins). -/
def getVisibleSymbols (t : SymbolTable) (scopeStack : List Nat) : List SymbolInfo :=
  List.insertionSort nameLe ((scopeStack.reverse.foldl (visibleStep t) []).map Prod.snd)

/-- Key order used by `get_all_symbols` / `get_detected_symbols`:
`key=lambda x: (x.line_num, x.scope, x.name)` (tuple order). -/
def symLe (a b : SymbolInfo) : Prop :=
  a.line_num < b.line_num ∨ (a.line_num = b.line_num ∧
    (a.scope < b.scope ∨ (a.scope = b.scope ∧ a.name ≤ b.name)))

instance : DecidableRel symLe := fun a b => by unfold symLe; infer_instance

/-- `get_all_symbols()`. -/
def getAllSymbols (t : SymbolTable) : List SymbolInfo :=
  List.insertionSort symLe (t.symbols.foldl (fun acc p => acc ++ p.2.map Prod.snd) [])

end SymbolTable

/-! ## Language profiles -/

/-- Model of the groups `1 .. lastindex` of an `re.Match`: entry `i - 1`
is `match.group(i)`; a `none` entry is a group that did not participate.
`match.lastindex is None` corresponds to the empty list. -/
abbrev MatchRes := List (Option String)

/-- `match.group(i)` for `1 ≤ i ≤ lastindex`. -/
def pyGroup (m : MatchRes) (i : Nat) : Option String := (m[i - 1]?).bind id

/-- A compiled language profile.  Compiled regular expressions are
abstract functions (see the module docstring); a slot whose pattern
failed to compile is `none`. -/
structure Profile : Type where
  language : String
  comment : Option String
  blockComment : List (Option String)
  indent : String
  indentTriggers : List (Option (String → Bool))
  dedentTriggers : List (Option (String → Bool))
  definitions : List (String × Option (String → Option MatchRes))
  symbolPatterns : List (String × Option (String → Option MatchRes))
  syntaxTokens : List (String × Option (String → List (Nat × Nat)))
  suggestionsCategorized : List (String × List String)

/-- `any(trigger.search(line_text) for trigger in triggers if trigger)`. -/
def triggerAny (triggers : List (Option (String → Bool))) (lineText : String) : Bool :=
  triggers.any fun trig =>
    match trig with
    | some f => f lineText
    | none => false

/-- The hard-coded minimal fallback profile returned by `get_profile`
when neither the requested profile nor `generic` is registered. -/
def minimalFallback : Profile :=
  { language := "minimal_fallback"
    comment := some "#"
    blockComment := [some "", some ""]
    indent := "    "
    indentTriggers := []
    dedentTriggers := []
    definitions := []
    symbolPatterns := []
    syntaxTokens := []
    suggestionsCategorized := [] }

/-- `LanguageProfileManager.get_profile(language)`: case-insensitive
lookup, falling back to `generic`, then to the minimal fallback.
The registry is the `_profiles` dict. -/
def getProfile (profiles : List (String × Profile)) (language : String) : Profile :=
  match dictLookup profiles (pyLower language) with
  | some profile => profile
  | none =>
      match dictLookup profiles "generic" with
      | some genericProfile => genericProfile
      | none => minimalFallback

/-! ## Per-line analysis state -/

/-- One recorded `LineState` (`{'indent': ..., 'scope': ...}`). -/
structure LineSt : Type where
  indent : Nat
  scope : Nat
deriving DecidableEq, Repr

/-- The current-function / current-class context
(`(name, construct_type, scope_id)` tuples or `None`). -/
structure Ctx : Type where
  curFunction : Option (String × String × Nat)
  curClass : Option (String × String × Nat)
deriving DecidableEq, Repr

/-- The analyzer fields read and written by the per-line pipeline. -/
structure PassState : Type where
  currentScope : Nat
  scopeStack : List Nat
  lineStates : List (Int × LineSt)
  ctx : Ctx
  table : SymbolTable
  tokens : List (Nat × Nat × String)

/-- The indentation-driven pop
(`while self.scope_stack and current_indent < self.scope_stack[-1]: pop`). -/
def indentPop (stack : List Nat) (currentIndent : Nat) : List Nat :=
  stack.dropWhile fun top => decide (currentIndent < top)

/-- The indent-trigger push (`next_potential_indent` check and the
monotonic-stack guard). -/
def applyIndentTrigger (P : Profile) (lineText : String) (currentIndent : Nat)
    (stack : List Nat) : List Nat :=
  if triggerAny P.indentTriggers lineText then
    let nextPotentialIndent := currentIndent + P.indent.length
    if nextPotentialIndent > currentIndent then
      match stack with
      | [] => [nextPotentialIndent]
      | top :: _ => if nextPotentialIndent > top then nextPotentialIndent :: stack else stack
    else stack
  else stack

/-- The trigger-driven dedent pop loop
(`while self.scope_stack and current_indent <= self.scope_stack[-1]: pop`):
this is the stack the loop leaves behind. -/
def dedentPopLoop (stack : List Nat) (currentIndent : Nat) : List Nat :=
  stack.dropWhile fun top => decide (currentIndent ≤ top)

/-- The elements removed by the trigger-driven dedent pop loop (the
complement of `dedentPopLoop`). -/
def dedentPops (stack : List Nat) (currentIndent : Nat) : List Nat :=
  stack.takeWhile fun top => decide (currentIndent ≤ top)

/-- The dedent-trigger branch: run the pop loop, then
`if not self.scope_stack: self.scope_stack.append(0)`. -/
def applyDedentTrigger (P : Profile) (lineText : String) (currentIndent : Nat)
    (stack : List Nat) : List Nat :=
  if triggerAny P.dedentTriggers lineText then
    let popped := dedentPopLoop stack currentIndent
    if popped.isEmpty then [0] else popped
  else stack

/-- The indentation-driven push (both `current_indent >` guards read the
same unchanged stack top). -/
def applyIndentPush (currentIndent : Nat) (prevIndent : Int) (stack : List Nat) : List Nat :=
  if currentIndent > stack.headD 0 then
    if (currentIndent : Int) > prevIndent ∧ currentIndent > stack.headD 0 then
      currentIndent :: stack
    else stack
  else stack

/-- `_analyze_line_scope(line_num, line_text)`.  Also returns the
`LineState` just recorded for `line_num` (the source reads it back as
`self.line_states[line_num]` immediately afterwards).  The stack is
stored top-first, so Python `pop()` from the end is `dropWhile` at the
head and `append` is `cons`. -/
def analyzeLineScope (P : Profile) (s : PassState) (lineNum : Nat) (lineText : String) :
    PassState × LineSt :=
  let prevState := (dictLookup s.lineStates ((lineNum : Int) - 1)).getD ⟨0, 0⟩
  let currentIndent := indentOf lineText
  if isBlankLine lineText then
    let recorded : LineSt := ⟨currentIndent, prevState.scope⟩
    ({ s with lineStates := dictInsert s.lineStates lineNum recorded }, recorded)
  else
    let stack1 := indentPop s.scopeStack currentIndent
    let stack2 := applyIndentTrigger P lineText currentIndent stack1
    let stack3 := applyDedentTrigger P lineText currentIndent stack2
    let prevIndent : Int :=
      ((dictLookup s.lineStates ((lineNum : Int) - 1)).map fun st => (st.indent : Int)).getD (-1)
    let stack4 := applyIndentPush currentIndent prevIndent stack3
    let stack5 := if stack4.isEmpty then [0] else stack4
    let currentScope := stack5.headD 0
    let curFunction1 :=
      match s.ctx.curFunction with
      | some f => if currentScope < f.2.2 then none else some f
      | none => none
    let ctx2 : Ctx :=
      match s.ctx.curClass with
      | some c => if currentScope < c.2.2 then ⟨none, none⟩ else ⟨curFunction1, some c⟩
      | none => ⟨curFunction1, none⟩
    let recorded : LineSt := ⟨currentIndent, currentScope⟩
    ({ s with currentScope := currentScope, scopeStack := stack5,
              lineStates := dictInsert s.lineStates lineNum recorded, ctx := ctx2 }, recorded)

/-- `_analyze_syntax_tokens(line_text, offset)`: for every named token
pattern, append `(offset + start, offset + end, token_type)` for each
span found on the line. -/
def analyzeSyntaxTokens (P : Profile) (tokens : List (Nat × Nat × String))
    (lineText : String) (offset : Nat) : List (Nat × Nat × String) :=
  P.syntaxTokens.foldl (fun acc p =>
    match p.2 with
    | none => acc
    | some finditer => acc ++ (finditer lineText).map fun se => (offset + se.1, offset + se.2, p.1))
    tokens

/-- The fixed priority order of definition patterns. -/
def definitionOrder : List String :=
  ["class", "interface", "struct", "enum", "function", "method",
   "variable_assignment", "lambda", "arrow"]

/-- The fixed order of symbol patterns. -/
def symbolOrder : List String := ["param", "variable", "import"]

/-- The `parent_info` metadata recorded from the current context. -/
def parentInfoOf (ctx : Ctx) : Metadata :=
  match ctx.curFunction with
  | some f => [("parent_name", .str f.1), ("parent_type", .str f.2.1)]
  | none =>
      match ctx.curClass with
      | some c => [("parent_name", .str c.1), ("parent_type", .str c.2.1)]
      | none => []

/-- Name extraction of `_handle_definition`: the group-1 capture for the
named construct kinds, with the purely-numeric guard for
`variable_assignment` (`isDigitStr s` is false on `""`, so the combined
Python guard `if symbol_name and symbol_name.isdigit()` is exactly
`isDigitStr`). -/
def defSymbolName (constructType : String) (m : MatchRes) : Option String :=
  let symbolName0 : Option String :=
    if constructType ∈ ["function", "method", "class", "interface", "struct", "enum"] then
      pyGroup m 1
    else if constructType = "variable_assignment" then pyGroup m 1
    else none
  if constructType = "variable_assignment" then
    match symbolName0 with
    | some s => if isDigitStr s then none else some s
    | none => none
  else symbolName0

/-- Parameter-list capture extraction of `_handle_definition`. -/
def defParamsStr (constructType : String) (m : MatchRes) : Option String :=
  if constructType ∈ ["function", "method"] then
    if m.length ≥ 2 then pyGroup m 2 else none
  else if constructType = "lambda" then
    if m.length ≥ 1 then (if m.length ≥ 2 then pyGroup m 2 else pyGroup m 1) else none
  else if constructType = "arrow" then
    if m.length ≥ 1 then (if m.length ≥ 2 then pyGroup m 2 else pyGroup m 1) else none
  else none

/-- `_handle_definition(line_num, construct_type, match, scope_id)`:
extract the name, add the symbol, update the function/class context, and
add one `param` symbol per parsed parameter at the synthetic nested
scope. -/
def handleDefinition (P : Profile) (lineNum : Nat) (constructType : String) (m : MatchRes)
    (scopeId : Nat) (ctx : Ctx) (t : SymbolTable) : Ctx × SymbolTable :=
  let parentInfo := parentInfoOf ctx
  let symbolName : Option String := defSymbolName constructType m
  let afterName : Ctx × SymbolTable :=
    match symbolName with
    | some nm =>
        if nm ≠ "" then
          let t1 := t.addSymbol nm constructType scopeId lineNum parentInfo
          let ctx1 :=
            if constructType ∈ ["function", "method"] then
              Ctx.mk (some (nm, constructType, scopeId)) none
            else if constructType ∈ ["class", "interface", "struct", "enum"] then
              Ctx.mk none (some (nm, constructType, scopeId))
            else ctx
          (ctx1, t1)
        else (ctx, t)
    | none => (ctx, t)
  if constructType ∈ ["function", "method", "lambda", "arrow"] then
    match defParamsStr constructType m with
    | some ps =>
        if ps ≠ "" then
          let paramScopeId := scopeId + P.indent.length
          let t2 := (parseParameters ps).foldl (fun tb param =>
            if param ≠ "" then
              let paramMetadata :=
                match symbolName with
                | some nm =>
                    if nm ≠ "" then dictInsert parentInfo "defined_in" (.pair nm constructType)
                    else parentInfo
                | none => parentInfo
              tb.addSymbol param "param" paramScopeId lineNum paramMetadata
            else tb) afterName.2
          (afterName.1, t2)
        else afterName
    | none => afterName
  else afterName

/-- `_handle_symbol(line_num, symbol_type, match, scope_id)`.  It never
modifies the function/class context. -/
def handleSymbol (lineNum : Nat) (symbolType : String) (m : MatchRes)
    (scopeId : Nat) (ctx : Ctx) (t : SymbolTable) : SymbolTable :=
  let parentInfo := parentInfoOf ctx
  if symbolType = "variable" then
    let symbolName : Option String :=
      match pyGroup m 1 with
      | some s => if isDigitStr s then none else some s
      | none => none
    match symbolName with
    | some nm => if nm ≠ "" then t.addSymbol nm "variable" scopeId lineNum parentInfo else t
    | none => t
  else if symbolType = "param" then
    match pyGroup m 1 with
    | some nm => if nm ≠ "" then t.addSymbol nm "param" scopeId lineNum parentInfo else t
    | none => t
  else if symbolType = "import" then
    if m.length ≥ 1 then
      let importedNames := m.foldl (fun acc g =>
        match g with
        | some nm =>
            if nm ≠ "" ∧ pystrip nm ≠ "" then
              acc ++ (nm.splitOn ",").filterMap fun n =>
                if pystrip n = "" then none else some (pystrip n)
            else acc
        | none => acc) ([] : List String)
      importedNames.foldl (fun tb imported =>
        tb.addSymbol imported "import" scopeId lineNum parentInfo) t
    else t
  else t

/-- `_analyze_constructs(line_num, line_text, scope_id)`: definition
patterns in priority order (these may update the context), then symbol
patterns with the skip-if-already-in-scope guard for variable/param. -/
def analyzeConstructs (P : Profile) (lineNum : Nat) (lineText : String) (scopeId : Nat)
    (ctx : Ctx) (t : SymbolTable) : Ctx × SymbolTable :=
  let stripped := lstrip lineText
  let afterDefs := definitionOrder.foldl (fun (acc : Ctx × SymbolTable) constructType =>
    match dictLookup P.definitions constructType with
    | some (some pattern) =>
        match pattern stripped with
        | some m => handleDefinition P lineNum constructType m scopeId acc.1 acc.2
        | none => acc
    | _ => acc) (ctx, t)
  let finalTable := symbolOrder.foldl (fun (tb : SymbolTable) symbolType =>
    match dictLookup P.symbolPatterns symbolType with
    | some (some pattern) =>
        match pattern stripped with
        | some m =>
            let candidate : Option String :=
              if symbolType = "variable" then pyGroup m 1
              else if symbolType = "param" then pyGroup m 1
              else none
            match candidate with
            | some c =>
                if c ≠ "" ∧ (dictLookup (tb.getSymbolsInScope scopeId) c).isSome then tb
                else handleSymbol lineNum symbolType m scopeId afterDefs.1 tb
            | none => handleSymbol lineNum symbolType m scopeId afterDefs.1 tb
        | none => tb
    | _ => tb) afterDefs.2
  (afterDefs.1, finalTable)

/-- One iteration of the per-line loop shared by `_full_analysis` and
`_process_diff_operations`. -/
def processLine (P : Profile) (s : PassState) (lineNum : Nat) (lineText : String)
    (offset : Nat) : PassState :=
  let scopeRes := analyzeLineScope P s lineNum lineText
  let tokens1 := analyzeSyntaxTokens P scopeRes.1.tokens lineText offset
  let constructed :=
    analyzeConstructs P lineNum lineText scopeRes.2.scope scopeRes.1.ctx scopeRes.1.table
  { scopeRes.1 with tokens := tokens1, ctx := constructed.1, table := constructed.2 }

/-- The per-line loop: `offset += len(line) + (1 if i < len(lines) - 1 else 0)`. -/
def runLines (P : Profile) (total : Nat) : List String → Nat → Nat → PassState → PassState
  | [], _, _, s => s
  | line :: rest, i, offset, s =>
      runLines P total rest (i + 1)
        (offset + line.length + (if i < total - 1 then 1 else 0))
        (processLine P s i line offset)

/-! ## The CodeAnalyzer driver -/

/-- The `CodeAnalyzer` state.  The line-hash dicts `{i: hash(line)}`
always have keys exactly `0 .. n-1` (or are empty), so they are stored
as plain lists indexed by line number; `dict.get(i)` is `l[i]?`. -/
structure Analyzer : Type where
  profile : Profile
  symTable : SymbolTable
  currentScope : Nat
  scopeStack : List Nat
  lineStates : List (Int × LineSt)
  curFunction : Option (String × String × Nat)
  curClass : Option (String × String × Nat)
  currentText : Option String
  syntaxTokenRanges : List (Nat × Nat × String)
  lineHashes : List String
  prevText : Option String
  prevLineHashes : List String
  prevLineStates : List (Int × LineSt)
  prevSymbolTableState : List (Nat × ScopeMap)
  prevSyntaxTokenRanges : List (Nat × Nat × String)

/-- `CodeAnalyzer.__init__` (after `_reset_state()` has run). -/
def initAnalyzer (P : Profile) : Analyzer :=
  { profile := P
    symTable := ⟨[]⟩
    currentScope := 0
    scopeStack := [0]
    lineStates := [(-1, ⟨0, 0⟩)]
    curFunction := none
    curClass := none
    currentText := none
    syntaxTokenRanges := []
    lineHashes := []
    prevText := none
    prevLineHashes := []
    prevLineStates := []
    prevSymbolTableState := []
    prevSyntaxTokenRanges := [] }

/-- `_reset_state()`: resets everything except the profile and
`_current_text`.  Note that it also clears `_current_line_hashes` and the
whole previous-analysis snapshot. -/
def resetState (a : Analyzer) : Analyzer :=
  { a with
    currentScope := 0
    scopeStack := [0]
    lineStates := [(-1, ⟨0, 0⟩)]
    curFunction := none
    curClass := none
    symTable := ⟨[]⟩
    syntaxTokenRanges := []
    lineHashes := []
    prevText := none
    prevLineHashes := []
    prevLineStates := []
    prevSymbolTableState := []
    prevSyntaxTokenRanges := [] }

/-- View of the analyzer fields the per-line loop works on. -/
def toPass (a : Analyzer) : PassState :=
  ⟨a.currentScope, a.scopeStack, a.lineStates, ⟨a.curFunction, a.curClass⟩,
   a.symTable, a.syntaxTokenRanges⟩

/-- Write the per-line loop's result back into the analyzer. -/
def fromPass (a : Analyzer) (p : PassState) : Analyzer :=
  { a with
    currentScope := p.currentScope
    scopeStack := p.scopeStack
    lineStates := p.lineStates
    curFunction := p.ctx.curFunction
    curClass := p.ctx.curClass
    symTable := p.table
    syntaxTokenRanges := p.tokens }

/-- `len or 1`: Python's `(len(...) or 1)` denominator guard. -/
def orOne (n : Nat) : Nat := if n = 0 then 1 else n

/-- `len({i for i in range(len(lines)) if a.get(i) != b.get(i)})`. -/
def changedLineCount (aHashes bHashes : List String) (lines : List String) : Nat :=
  ((List.range lines.length).filter fun i => !(aHashes[i]? == bHashes[i]?)).length

/-- `change_ratio_current` of `_should_attempt_incremental` (exact in `ℚ`). -/
def changeRatioCurrent (curHashes prevHashes : List String) (currentLines : List String) : ℚ :=
  (changedLineCount curHashes prevHashes currentLines : ℚ) / (orOne currentLines.length : ℚ)

/-- `change_ratio_prev` of `_should_attempt_incremental`. -/
def changeRatioPrevious (curHashes prevHashes : List String) (prevLines : List String) : ℚ :=
  (changedLineCount prevHashes curHashes prevLines : ℚ) / (orOne prevLines.length : ℚ)

/-- `length_change_ratio` of `_should_attempt_incremental`. -/
def lengthChangeRatio (currentLines prevLines : List String) : ℚ :=
  (((currentLines.length : Int) - (prevLines.length : Int)).natAbs : ℚ) /
    (orOne prevLines.length : ℚ)

/-- `_should_attempt_incremental(current_lines, prev_lines)`; the hash
dicts it reads from `self` are passed explicitly.  The float thresholds
`0.4` and `0.15` are the exact rationals `2/5` and `3/20`. -/
def shouldAttemptIncremental (curHashes prevHashes : List String)
    (currentLines prevLines : List String) : Bool :=
  if prevHashes.isEmpty || prevLines.isEmpty then false
  else if changeRatioCurrent curHashes prevHashes currentLines > 2/5
        ∨ changeRatioPrevious curHashes prevHashes prevLines > 2/5
        ∨ lengthChangeRatio currentLines prevLines > 3/20 then false
  else true

/-- `_setup_incremental_analysis()`. -/
def setupIncremental (a : Analyzer) : Analyzer :=
  { a with
    lineStates := a.prevLineStates
    symTable := ⟨a.prevSymbolTableState⟩
    syntaxTokenRanges := []
    currentScope := 0
    scopeStack := [0]
    curFunction := none
    curClass := none }

/-- `_full_analysis(text)`: `_reset_state()` then the per-line loop. -/
def fullAnalysisRun (a : Analyzer) (text : String) : Analyzer :=
  let a0 := resetState a
  let lines := pySplitLines text
  fromPass a0 (runLines a0.profile lines.length lines 0 0 (toPass a0))

/-- `_process_diff_operations(matcher, current_lines)`: the matcher
argument is unused by its body; it is the same per-line loop, without a
state reset. -/
def processDiffOperations (a : Analyzer) (currentLines : List String) : Analyzer :=
  fromPass a (runLines a.profile currentLines.length currentLines 0 0 (toPass a))

/-- `_finalize_analysis`: normalize the scope stack and current scope
(the timing/logging part has no observable state). -/
def finalizeAnalysis (a : Analyzer) : Analyzer :=
  match a.scopeStack with
  | [] => { a with scopeStack := [0], currentScope := 0 }
  | top :: _ => { a with currentScope := top }

/-- `analyze_text(text)`: snapshot the previous analysis, hash the new
lines, pick full or incremental, run it, finalize. -/
def analyzeText (hash : String → String) (a : Analyzer) (text : String) : Analyzer :=
  let currentLines := pySplitLines text
  let a1 : Analyzer :=
    { a with
      prevText := a.currentText
      prevLineHashes := a.lineHashes
      prevLineStates := a.lineStates
      prevSymbolTableState := a.symTable.symbols
      prevSyntaxTokenRanges := a.syntaxTokenRanges
      currentText := some text
      lineHashes := currentLines.map hash }
  let a2 : Analyzer :=
    match a.currentText with
    | some prevText =>
        if shouldAttemptIncremental a1.lineHashes a1.prevLineHashes
            currentLines (pySplitLines prevText) then
          processDiffOperations (setupIncremental a1) currentLines
        else fullAnalysisRun a1 text
    | none => fullAnalysisRun a1 text
  finalizeAnalysis a2

/-! ## Read APIs -/

/-- `get_syntax_token_ranges()`. -/
def getSyntaxTokenRanges (a : Analyzer) : List (Nat × Nat × String) :=
  a.syntaxTokenRanges

/-- `get_detected_symbols()`: `get_all_symbols()` sorted (again) by
`(line_num, scope, name)`. -/
def getDetectedSymbols (a : Analyzer) : List SymbolInfo :=
  List.insertionSort SymbolTable.symLe a.symTable.getAllSymbols

/-- `get_suggestions(exclude_categories)`: the non-excluded category
word lists plus the names of the symbols visible from the scope stack,
deduplicated and sorted (a Python `set` then `sorted`; `dedup` +
`insertionSort` computes the same sorted duplicate-free list).
`a.scopeStack` is stored top-first, so `.reverse` restores the source
order expected by `get_visible_symbols`. -/
def getSuggestions (a : Analyzer) (excludeCategories : Option (List String)) : List String :=
  let excluded := excludeCategories.getD []
  let fromCategories := a.profile.suggestionsCategorized.foldl
    (fun acc p => if p.1 ∈ excluded then acc else acc ++ p.2) []
  let visibleNames := (a.symTable.getVisibleSymbols a.scopeStack.reverse).map SymbolInfo.name
  List.insertionSort (· ≤ ·) (fromCategories ++ visibleNames).dedup

/-! ## Well-formedness of symbol tables

Every table the Python code can build has unique scope keys and unique
symbol-name keys per scope (they are dicts); theorems that need this
assume `NodupKeys`. -/

/-- Unique dict keys, outer (scope ids) and inner (symbol names). -/
def SymbolTable.NodupKeys (t : SymbolTable) : Prop :=
  (t.symbols.map Prod.fst).Nodup ∧ ∀ p ∈ t.symbols, (p.2.map Prod.fst).Nodup

/-- The name under which a record is stored is the record's `name` field
(`add_symbol` stores `symbol_key = name`). -/
def SymbolTable.KeyedByName (t : SymbolTable) : Prop :=
  ∀ p ∈ t.symbols, ∀ q ∈ p.2, (q.2 : SymbolInfo).name = q.1

/-! ## Claim C9: profile lookup never fails -/

/-- Claim C9: `get_profile(name)` never fails: it looks up the lowercased
name; on a miss it returns the registered `generic` profile (so
`get_profile("no-such-lang")` equals `get_profile("generic")`), and only
when no `generic` profile is registered does it return the fully-empty
minimal-fallback profile. -/
theorem C9_get_profile_total_fallback (profiles : List (String × Profile)) :
    (∀ language p, dictLookup profiles (pyLower language) = some p →
        getProfile profiles language = p)
  ∧ (∀ language g, dictLookup profiles (pyLower language) = none →
        dictLookup profiles "generic" = some g → getProfile profiles language = g)
  ∧ (dictLookup profiles "no-such-lang" = none →
        getProfile profiles "no-such-lang" = getProfile profiles "generic")
  ∧ (∀ language, dictLookup profiles (pyLower language) = none →
        dictLookup profiles "generic" = none → getProfile profiles language = minimalFallback) := by
  refine ⟨?_, ?_, ?_, ?_⟩
  · intro language p h
    simp [getProfile, h]
  · intro language g hmiss hg
    simp [getProfile, hmiss, hg]
  · intro hmiss
    have hlower : pyLower "no-such-lang" = "no-such-lang" := by decide
    have hglower : pyLower "generic" = "generic" := by decide
    cases hg : dictLookup profiles "generic" with
    | none => simp [getProfile, hlower, hglower, hmiss, hg]
    | some g => simp [getProfile, hlower, hglower, hmiss, hg]
  · intro language hmiss hg
    simp [getProfile, hmiss, hg]

/-- Witness: a concrete two-entry registry exercising the `generic`
fallback of `C9_get_profile_total_fallback`. -/
theorem C9_get_profile_witness :
    getProfile [("generic", minimalFallback)] "no-such-lang" =
      getProfile [("generic", minimalFallback)] "generic" :=
  (C9_get_profile_total_fallback [("generic", minimalFallback)]).2.2.1 rfl

/-! ## Claim C6: add_symbol -/

/-- Claim C6: `add_symbol` is a no-op when the table already holds a
symbol of that name in that scope recorded at exactly `line_num`; when
the existing entry has a different line number the call replaces it with
the new record (most-recent-definition-wins per scope), whose stored
metadata is the (defensively copied) value of the metadata argument at
call time — so later changes to the caller's dict cannot affect it. -/
theorem C6_add_symbol_idempotent_and_replaces (t : SymbolTable) (name symbolType : String)
    (scopeId lineNum : Nat) (metadata : Metadata) :
    ((∃ r, t.lookupSymbol scopeId name = some r ∧ r.line_num = lineNum) →
        t.addSymbol name symbolType scopeId lineNum metadata = t)
  ∧ ((∃ r, t.lookupSymbol scopeId name = some r ∧ r.line_num ≠ lineNum) →
        (t.addSymbol name symbolType scopeId lineNum metadata).lookupSymbol scopeId name =
          some ⟨name, symbolType, scopeId, lineNum, metadata⟩) := by
  constructor
  · rintro ⟨r, hr, hline⟩
    cases hsc : dictLookup t.symbols scopeId with
    | none => simp [SymbolTable.lookupSymbol, hsc, dictLookup] at hr
    | some m =>
        rw [SymbolTable.lookupSymbol, hsc] at hr
        simp only [Option.getD_some] at hr
        simp only [SymbolTable.addSymbol, hsc, Option.isSome_some, if_true, Option.getD_some,
          hr, hline, if_true]
  · rintro ⟨r, hr, hline⟩
    cases hsc : dictLookup t.symbols scopeId with
    | none => simp [SymbolTable.lookupSymbol, hsc, dictLookup] at hr
    | some m =>
        rw [SymbolTable.lookupSymbol, hsc] at hr
        simp only [Option.getD_some] at hr
        simp only [SymbolTable.addSymbol, hsc, Option.isSome_some, if_true, Option.getD_some,
          hr, if_neg hline]
        rw [SymbolTable.lookupSymbol]
        have h1 := dictLookup_insert_self t.symbols scopeId
          (dictInsert m name (⟨name, symbolType, scopeId, lineNum, metadata⟩ : SymbolInfo))
        simp only [h1, Option.getD_some]
        exact dictLookup_insert_self m name _

/-- Witness for `C6_add_symbol_idempotent_and_replaces` on a concrete
one-symbol table. -/
theorem C6_add_symbol_witness :
    (SymbolTable.mk [(0, [("x", ⟨"x", "variable", 0, 3, []⟩)])]).addSymbol "x" "function" 0 3 []
        = SymbolTable.mk [(0, [("x", ⟨"x", "variable", 0, 3, []⟩)])]
  ∧ ((SymbolTable.mk [(0, [("x", ⟨"x", "variable", 0, 3, []⟩)])]).addSymbol
        "x" "function" 0 9 [("k", .str "v")]).lookupSymbol 0 "x"
      = some ⟨"x", "function", 0, 9, [("k", .str "v")]⟩ :=
  ⟨(C6_add_symbol_idempotent_and_replaces
      (SymbolTable.mk [(0, [("x", ⟨"x", "variable", 0, 3, []⟩)])]) "x" "function" 0 3 []).1
      ⟨⟨"x", "variable", 0, 3, []⟩, by decide, rfl⟩,
   (C6_add_symbol_idempotent_and_replaces
      (SymbolTable.mk [(0, [("x", ⟨"x", "variable", 0, 3, []⟩)])]) "x" "function" 0 9
      [("k", .str "v")]).2
      ⟨⟨"x", "variable", 0, 3, []⟩, by decide, by decide⟩⟩

/-! ## Claim C5: remove_symbols_in_range -/

theorem dictLookup_filter {κ β : Type} [DecidableEq κ]
    (m : List (κ × β)) (p : κ × β → Bool) (k : κ) (hnd : (m.map Prod.fst).Nodup) :
    dictLookup (m.filter p) k =
      match dictLookup m k with
      | some v => if p (k, v) then some v else none
      | none => none := by
  induction m with
  | nil => rfl
  | cons hd tl ih =>
      obtain ⟨k0, v0⟩ := hd
      simp only [List.map_cons, List.nodup_cons] at hnd
      by_cases hk : k0 = k
      · subst hk
        have htl : dictLookup tl k0 = none := dictLookup_eq_none_of_not_mem_keys tl k0 hnd.1
        by_cases hp : p (k0, v0)
        · simp [List.filter_cons, hp, dictLookup]
        · have hfil : dictLookup (tl.filter p) k0 = none := by
            apply dictLookup_eq_none_of_not_mem_keys
            intro hmem
            exact hnd.1 ((List.Sublist.map Prod.fst (List.filter_sublist tl)).subset hmem)
          simp [List.filter_cons, hp, hfil, dictLookup]
      · by_cases hp : p (k0, v0)
        · simp [List.filter_cons, hp, dictLookup, hk, ih hnd.2]
        · simp [List.filter_cons, hp, dictLookup, hk, ih hnd.2]

theorem removeSymbols_lookup_aux (l : List (Nat × ScopeMap)) (a b sc : Nat)
    (hnd : (l.map Prod.fst).Nodup) :
    dictLookup ((l.map fun p => (p.1, p.2.filter (SymbolTable.keepSymbol a b))).filter
        fun p => !p.2.isEmpty) sc =
      match dictLookup l sc with
      | some m =>
          if (m.filter (SymbolTable.keepSymbol a b)).isEmpty then none
          else some (m.filter (SymbolTable.keepSymbol a b))
      | none => none := by
  induction l with
  | nil => rfl
  | cons hd tl ih =>
      obtain ⟨k0, m0⟩ := hd
      simp only [List.map_cons, List.nodup_cons] at hnd
      have keysEq : ((tl.map fun p => (p.1, p.2.filter (SymbolTable.keepSymbol a b))).map
          Prod.fst) = tl.map Prod.fst := by
        simp [List.map_map, Function.comp_def]
      by_cases hk : k0 = sc
      · subst hk
        by_cases hemp : (m0.filter (SymbolTable.keepSymbol a b)).isEmpty
        · have hnone : dictLookup ((tl.map fun p =>
              (p.1, p.2.filter (SymbolTable.keepSymbol a b))).filter
                fun p => !p.2.isEmpty) k0 = none := by
            apply dictLookup_eq_none_of_not_mem_keys
            intro hmem
            have hsub : List.Sublist
                (((tl.map fun p => (p.1, p.2.filter (SymbolTable.keepSymbol a b))).filter
                    fun p => !p.2.isEmpty).map Prod.fst)
                ((tl.map fun p => (p.1, p.2.filter (SymbolTable.keepSymbol a b))).map Prod.fst) :=
              List.Sublist.map Prod.fst (List.filter_sublist _)
            have := hsub.subset hmem
            rw [keysEq] at this
            exact hnd.1 this
          simp [List.filter_cons, hemp, dictLookup, hnone]
        · simp [List.filter_cons, hemp, dictLookup]
      · by_cases hemp : (m0.filter (SymbolTable.keepSymbol a b)).isEmpty
        · simp [List.filter_cons, hemp, dictLookup, hk, ih hnd.2]
        · simp [List.filter_cons, hemp, dictLookup, hk, ih hnd.2]

/-- Claim C5 counterexample: the claim says the only scope entries
dropped by `remove_symbols_in_range` are scopes left empty *as a result
of this removal*.  But a scope that was already empty before the call
(created by `enter_scope`) is dropped even though the removal deleted no
symbol from it: with `enter_scope(7)` on an empty table,
`remove_symbols_in_range(0, 1)` drops scope 7 although scope 7 held no
symbol at all, let alone one with line in `[0, 1)`. -/
theorem C5_counterexample :
    ¬ (∀ (t : SymbolTable) (startLine endLine scopeId : Nat),
        (dictLookup t.symbols scopeId).isSome →
        (dictLookup (t.removeSymbolsInRange startLine endLine).symbols scopeId).isNone →
        ∃ m name r, dictLookup t.symbols scopeId = some m ∧ dictLookup m name = some r ∧
          startLine ≤ r.line_num ∧ r.line_num < endLine) := by
  intro h
  obtain ⟨m, name, r, hm, hr, -, -⟩ :=
    h (SymbolTable.empty.enterScope 7) 0 1 7 (by decide) (by decide)
  have hm0 : dictLookup (SymbolTable.empty.enterScope 7).symbols 7 = some [] := by decide
  rw [hm0] at hm
  obtain rfl : ([] : ScopeMap) = m := Option.some.inj hm
  simp [dictLookup] at hr

/-- Claim C5, amended: `remove_symbols_in_range(start_line, end_line)`
deletes exactly the symbols whose line `L` satisfies
`start_line ≤ L < end_line`, across all scopes; every other symbol is
still present afterwards with the same record; and the scope entries
dropped are exactly those whose symbol dict is empty *after* the removal
— which includes scopes that were already empty before the call, not
only scopes emptied by this removal. -/
theorem C5_remove_symbols_in_range_amended (t : SymbolTable) (startLine endLine : Nat)
    (hnd : t.NodupKeys) :
    (∀ scopeId name,
        (t.removeSymbolsInRange startLine endLine).lookupSymbol scopeId name =
          match t.lookupSymbol scopeId name with
          | some r =>
              if startLine ≤ r.line_num ∧ r.line_num < endLine then none else some r
          | none => none)
  ∧ (∀ scopeId,
        (dictLookup (t.removeSymbolsInRange startLine endLine).symbols scopeId).isSome ↔
          ∃ m, dictLookup t.symbols scopeId = some m ∧
            m.filter (SymbolTable.keepSymbol startLine endLine) ≠ []) := by
  have hsymb : (t.removeSymbolsInRange startLine endLine).symbols =
      (t.symbols.map fun p => (p.1, p.2.filter (SymbolTable.keepSymbol startLine endLine))).filter
        fun p => !p.2.isEmpty := rfl
  constructor
  · intro scopeId name
    cases hsc : dictLookup t.symbols scopeId with
    | none =>
        have hred : dictLookup (t.removeSymbolsInRange startLine endLine).symbols scopeId
            = none := by
          rw [hsymb, removeSymbols_lookup_aux t.symbols startLine endLine scopeId hnd.1, hsc]
        rw [SymbolTable.lookupSymbol, SymbolTable.lookupSymbol, hred, hsc]
        simp [dictLookup]
    | some m =>
        have hmem : (scopeId, m) ∈ t.symbols := dictLookup_mem _ _ _ hsc
        have hndm : (m.map Prod.fst).Nodup := hnd.2 _ hmem
        by_cases hemp : (m.filter (SymbolTable.keepSymbol startLine endLine)).isEmpty
        · have hred : dictLookup (t.removeSymbolsInRange startLine endLine).symbols scopeId
              = none := by
            rw [hsymb, removeSymbols_lookup_aux t.symbols startLine endLine scopeId hnd.1, hsc]
            exact if_pos hemp
          rw [SymbolTable.lookupSymbol, SymbolTable.lookupSymbol, hred, hsc]
          simp only [Option.getD_none, Option.getD_some]
          rw [show dictLookup ([] : ScopeMap) name = none from rfl]
          cases hn : dictLookup m name with
          | none => rfl
          | some r =>
              have hrm : (name, r) ∈ m := dictLookup_mem _ _ _ hn
              have hkeep : ¬ SymbolTable.keepSymbol startLine endLine (name, r) = true := by
                rw [List.isEmpty_iff] at hemp
                exact List.filter_eq_nil_iff.mp hemp _ hrm
              have hrange : startLine ≤ r.line_num ∧ r.line_num < endLine := by
                simpa [SymbolTable.keepSymbol, Decidable.not_not] using hkeep
              simp [hrange]
        · have hred : dictLookup (t.removeSymbolsInRange startLine endLine).symbols scopeId
              = some (m.filter (SymbolTable.keepSymbol startLine endLine)) := by
            rw [hsymb, removeSymbols_lookup_aux t.symbols startLine endLine scopeId hnd.1, hsc]
            exact if_neg hemp
          rw [SymbolTable.lookupSymbol, SymbolTable.lookupSymbol, hred, hsc]
          simp only [Option.getD_some]
          rw [dictLookup_filter m _ name hndm]
          cases hn : dictLookup m name with
          | none => rfl
          | some r =>
              by_cases hrange : startLine ≤ r.line_num ∧ r.line_num < endLine
              · have hkeep : SymbolTable.keepSymbol startLine endLine (name, r) = false := by
                  simp [SymbolTable.keepSymbol, hrange.1, hrange.2]
                simp [hkeep, hrange]
              · have hkeep : SymbolTable.keepSymbol startLine endLine (name, r) = true := by
                  simp only [SymbolTable.keepSymbol, Bool.not_eq_true', Bool.and_eq_false_iff,
                    decide_eq_false_iff_not]
                  omega
                simp [hkeep, hrange]
  · intro scopeId
    cases hsc : dictLookup t.symbols scopeId with
    | none =>
        have hred : dictLookup (t.removeSymbolsInRange startLine endLine).symbols scopeId
            = none := by
          rw [hsymb, removeSymbols_lookup_aux t.symbols startLine endLine scopeId hnd.1, hsc]
        rw [hred]
        simp
    | some m =>
        by_cases hemp : (m.filter (SymbolTable.keepSymbol startLine endLine)).isEmpty
        · have hred : dictLookup (t.removeSymbolsInRange startLine endLine).symbols scopeId
              = none := by
            rw [hsymb, removeSymbols_lookup_aux t.symbols startLine endLine scopeId hnd.1, hsc]
            exact if_pos hemp
          rw [hred]
          simp only [Option.isSome_none, Bool.false_eq_true, false_iff]
          rintro ⟨m', hm', hne⟩
          obtain rfl : m = m' := Option.some.inj (hsc ▸ hm')
          exact hne (List.isEmpty_iff.mp hemp)
        · have hred : dictLookup (t.removeSymbolsInRange startLine endLine).symbols scopeId
              = some (m.filter (SymbolTable.keepSymbol startLine endLine)) := by
            rw [hsymb, removeSymbols_lookup_aux t.symbols startLine endLine scopeId hnd.1, hsc]
            exact if_neg hemp
          rw [hred]
          simp only [Option.isSome_some, true_iff]
          exact ⟨m, rfl, fun hnil => hemp (List.isEmpty_iff.mpr hnil)⟩

/-- Witness for `C5_remove_symbols_in_range_amended` on a concrete
one-scope, two-symbol table: the symbol on line 2 is removed by
`remove_symbols_in_range(2, 4)`, the one on line 5 is kept unchanged. -/
theorem C5_remove_symbols_in_range_witness :
    ((SymbolTable.mk [(0, [("x", ⟨"x", "variable", 0, 2, []⟩),
        ("y", ⟨"y", "variable", 0, 5, []⟩)])]).removeSymbolsInRange 2 4).lookupSymbol 0 "x" = none
  ∧ ((SymbolTable.mk [(0, [("x", ⟨"x", "variable", 0, 2, []⟩),
        ("y", ⟨"y", "variable", 0, 5, []⟩)])]).removeSymbolsInRange 2 4).lookupSymbol 0 "y" =
      some ⟨"y", "variable", 0, 5, []⟩ := by
  have h := C5_remove_symbols_in_range_amended
    (SymbolTable.mk [(0, [("x", ⟨"x", "variable", 0, 2, []⟩),
        ("y", ⟨"y", "variable", 0, 5, []⟩)])]) 2 4 (by refine ⟨by decide, ?_⟩; decide)
  refine ⟨?_, ?_⟩
  · have hx := h.1 0 "x"
    rw [show (SymbolTable.mk [(0, [("x", ⟨"x", "variable", 0, 2, []⟩),
        ("y", ⟨"y", "variable", 0, 5, []⟩)])]).lookupSymbol 0 "x" =
        some ⟨"x", "variable", 0, 2, []⟩ from rfl] at hx
    simpa using hx
  · have hy := h.1 0 "y"
    rw [show (SymbolTable.mk [(0, [("x", ⟨"x", "variable", 0, 2, []⟩),
        ("y", ⟨"y", "variable", 0, 5, []⟩)])]).lookupSymbol 0 "y" =
        some ⟨"y", "variable", 0, 5, []⟩ from rfl] at hy
    simpa using hy

/-! ## Claim C3: the incremental heuristic -/

/-- Claim C3: `_should_attempt_incremental` returns `false` exactly when
there is no previous snapshot (no previous line hashes or no previous
lines), or either changed-line ratio exceeds `0.4` (= `2/5`), or the
line-count delta ratio exceeds `0.15` (= `3/20`); in every other case it
returns `true`.  The extra conjuncts identify the code's `(len or 1)`
ratios with the claim's plain fractions whenever the corresponding list
is non-empty. -/
theorem C3_should_attempt_incremental_characterization
    (curHashes prevHashes currentLines prevLines : List String) :
    (shouldAttemptIncremental curHashes prevHashes currentLines prevLines = false ↔
      (prevHashes = [] ∨ prevLines = [] ∨
        changeRatioCurrent curHashes prevHashes currentLines > 2/5 ∨
        changeRatioPrevious curHashes prevHashes prevLines > 2/5 ∨
        lengthChangeRatio currentLines prevLines > 3/20))
  ∧ (currentLines ≠ [] →
      changeRatioCurrent curHashes prevHashes currentLines =
        (changedLineCount curHashes prevHashes currentLines : ℚ) / (currentLines.length : ℚ))
  ∧ (prevLines ≠ [] →
      changeRatioPrevious curHashes prevHashes prevLines =
        (changedLineCount prevHashes curHashes prevLines : ℚ) / (prevLines.length : ℚ))
  ∧ (prevLines ≠ [] →
      lengthChangeRatio currentLines prevLines =
        (((currentLines.length : Int) - (prevLines.length : Int)).natAbs : ℚ) /
          (prevLines.length : ℚ)) := by
  refine ⟨?_, ?_, ?_, ?_⟩
  · unfold shouldAttemptIncremental
    by_cases h1 : prevHashes.isEmpty || prevLines.isEmpty
    · simp only [h1, if_true, true_iff]
      rcases Bool.or_eq_true_iff.mp h1 with h | h
      · exact Or.inl (List.isEmpty_iff.mp h)
      · exact Or.inr (Or.inl (List.isEmpty_iff.mp h))
    · rw [if_neg (by simpa using h1)]
      simp only [Bool.or_eq_true, List.isEmpty_iff] at h1
      push_neg at h1
      by_cases h2 : changeRatioCurrent curHashes prevHashes currentLines > 2/5
          ∨ changeRatioPrevious curHashes prevHashes prevLines > 2/5
          ∨ lengthChangeRatio currentLines prevLines > 3/20
      · simp [h2, h1.1, h1.2]
      · simp [h2, h1.1, h1.2]
  · intro h
    have : currentLines.length ≠ 0 := fun h0 => h (List.length_eq_zero.mp h0)
    rw [changeRatioCurrent, orOne, if_neg this]
  · intro h
    have : prevLines.length ≠ 0 := fun h0 => h (List.length_eq_zero.mp h0)
    rw [changeRatioPrevious, orOne, if_neg this]
  · intro h
    have : prevLines.length ≠ 0 := fun h0 => h (List.length_eq_zero.mp h0)
    rw [lengthChangeRatio, orOne, if_neg this]

/-- Witness for `C3_should_attempt_incremental_characterization`: a
three-line snapshot with one changed line (ratios `1/3`, `1/3`, `0`)
routes to the incremental path, and an empty snapshot routes to full. -/
theorem C3_should_attempt_incremental_witness :
    shouldAttemptIncremental ["ha", "hb", "hc"] ["ha", "hx", "hc"]
        ["a", "b", "c"] ["a", "x", "c"] = true
  ∧ shouldAttemptIncremental ["ha"] [] ["a"] [] = false := by
  constructor
  · cases hb : shouldAttemptIncremental ["ha", "hb", "hc"] ["ha", "hx", "hc"]
        ["a", "b", "c"] ["a", "x", "c"] with
    | true => rfl
    | false =>
        have h := (C3_should_attempt_incremental_characterization
          ["ha", "hb", "hc"] ["ha", "hx", "hc"] ["a", "b", "c"] ["a", "x", "c"]).1.mp hb
        have hcnt1 : changedLineCount ["ha", "hb", "hc"] ["ha", "hx", "hc"]
            ["a", "b", "c"] = 1 := by decide
        have hcnt2 : changedLineCount ["ha", "hx", "hc"] ["ha", "hb", "hc"]
            ["a", "x", "c"] = 1 := by decide
        rcases h with h | h | h | h | h
        · exact absurd h (by decide)
        · exact absurd h (by decide)
        · rw [changeRatioCurrent, hcnt1] at h
          exact absurd h (by norm_num [orOne])
        · rw [changeRatioPrevious, hcnt2] at h
          exact absurd h (by norm_num [orOne])
        · rw [lengthChangeRatio] at h
          exact absurd h (by norm_num [orOne])
  · exact (C3_should_attempt_incremental_characterization
      ["ha"] [] ["a"] []).1.mpr (Or.inl rfl)

/-! ## Claim C7: visibility and shadowing -/

theorem dictLookup_isSome_of_mem_keys {κ β : Type} [DecidableEq κ]
    (m : List (κ × β)) (k : κ) (h : k ∈ m.map Prod.fst) : (dictLookup m k).isSome := by
  induction m with
  | nil => simp at h
  | cons hd tl ih =>
      obtain ⟨k0, v0⟩ := hd
      by_cases hk : k0 = k
      · simp [dictLookup, hk]
      · simp only [List.map_cons, List.mem_cons] at h
        rcases h with h | h
        · exact absurd h.symm hk
        · simp [dictLookup, hk, ih h]

theorem dictInsert_of_not_mem {κ β : Type} [DecidableEq κ]
    (m : List (κ × β)) (k : κ) (v : β) (h : k ∉ m.map Prod.fst) :
    dictInsert m k v = m ++ [(k, v)] := by
  induction m with
  | nil => rfl
  | cons hd tl ih =>
      obtain ⟨k0, v0⟩ := hd
      simp only [List.map_cons, List.mem_cons, not_or] at h
      have hk : ¬ k0 = k := fun hk => h.1 hk.symm
      simp [dictInsert, hk, ih h.2]

theorem SymbolTable.visibleInsertScope_lookup (acc : List (String × SymbolInfo)) (m : ScopeMap)
    (n : String) :
    dictLookup (SymbolTable.visibleInsertScope acc m) n =
      match dictLookup acc n with
      | some v => some v
      | none => dictLookup m n := by
  induction m generalizing acc with
  | nil =>
      rw [show SymbolTable.visibleInsertScope acc [] = acc from rfl]
      cases h : dictLookup acc n <;> simp [h, dictLookup]
  | cons hd tl ih =>
      obtain ⟨k0, v0⟩ := hd
      rw [SymbolTable.visibleInsertScope, List.foldl_cons]
      rw [show (tl.foldl (fun acc2 p =>
          if (dictLookup acc2 p.1).isSome then acc2 else dictInsert acc2 p.1 p.2)
          (if (dictLookup acc k0).isSome then acc else dictInsert acc k0 v0)) =
        SymbolTable.visibleInsertScope (if (dictLookup acc k0).isSome then acc
          else dictInsert acc k0 v0) tl from rfl]
      rw [ih]
      by_cases hk : k0 = n
      · subst hk
        cases hacc : dictLookup acc k0 with
        | some v => simp [hacc, dictLookup]
        | none =>
            simp only [hacc, Option.isSome_none, Bool.false_eq_true, if_false]
            rw [dictLookup_insert_self]
            simp [dictLookup]
      · cases hacc : dictLookup acc k0 with
        | some v =>
            simp only [hacc, Option.isSome_some, if_true]
            cases h1 : dictLookup acc n <;> simp [h1, dictLookup, hk]
        | none =>
            simp only [hacc, Option.isSome_none, Bool.false_eq_true, if_false]
            rw [dictLookup_insert_ne acc k0 n v0 hk]
            cases h1 : dictLookup acc n <;> simp [h1, dictLookup, hk]

theorem SymbolTable.visibleFold_lookup (t : SymbolTable) (L : List Nat)
    (acc : List (String × SymbolInfo)) (n : String) :
    dictLookup (L.foldl (SymbolTable.visibleStep t) acc) n =
      match dictLookup acc n with
      | some v => some v
      | none => L.findSome? fun scopeId =>
          (dictLookup t.symbols scopeId).bind fun m => dictLookup m n := by
  induction L generalizing acc with
  | nil =>
      rw [List.foldl_nil]
      cases h : dictLookup acc n <;> simp [h]
  | cons sc L ih =>
      rw [List.foldl_cons, ih, List.findSome?_cons]
      cases hsc : dictLookup t.symbols sc with
      | none =>
          rw [SymbolTable.visibleStep, hsc]
          cases h1 : dictLookup acc n <;> simp [h1]
      | some m =>
          rw [SymbolTable.visibleStep, hsc, SymbolTable.visibleInsertScope_lookup]
          cases h1 : dictLookup acc n with
          | some v => simp [h1]
          | none =>
              cases h2 : dictLookup m n <;> simp [h1, h2]

theorem SymbolTable.visibleInsertScope_inv (acc : List (String × SymbolInfo)) (m : ScopeMap)
    (hval : ∀ q ∈ acc, (q.2 : SymbolInfo).name = q.1)
    (hnd : (acc.map Prod.fst).Nodup)
    (hm : ∀ q ∈ m, (q.2 : SymbolInfo).name = q.1) :
    (∀ q ∈ SymbolTable.visibleInsertScope acc m, (q.2 : SymbolInfo).name = q.1) ∧
      ((SymbolTable.visibleInsertScope acc m).map Prod.fst).Nodup := by
  induction m generalizing acc with
  | nil => exact ⟨hval, hnd⟩
  | cons hd tl ih =>
      obtain ⟨k0, v0⟩ := hd
      rw [SymbolTable.visibleInsertScope, List.foldl_cons]
      rw [show (tl.foldl (fun acc2 p =>
          if (dictLookup acc2 p.1).isSome then acc2 else dictInsert acc2 p.1 p.2)
          (if (dictLookup acc k0).isSome then acc else dictInsert acc k0 v0)) =
        SymbolTable.visibleInsertScope (if (dictLookup acc k0).isSome then acc
          else dictInsert acc k0 v0) tl from rfl]
      have hmtl : ∀ q ∈ tl, (q.2 : SymbolInfo).name = q.1 :=
        fun q hq => hm q (List.mem_cons_of_mem _ hq)
      cases hacc : dictLookup acc k0 with
      | some v =>
          simp only [hacc, Option.isSome_some, if_true]
          exact ih acc hval hnd hmtl
      | none =>
          simp only [hacc, Option.isSome_none, Bool.false_eq_true, if_false]
          have hnotmem : k0 ∉ acc.map Prod.fst := by
            intro hmem
            have := dictLookup_isSome_of_mem_keys acc k0 hmem
            rw [hacc] at this
            simp at this
          rw [dictInsert_of_not_mem acc k0 v0 hnotmem]
          apply ih
          · intro q hq
            rcases List.mem_append.mp hq with hq | hq
            · exact hval q hq
            · obtain rfl : q = (k0, v0) := List.mem_singleton.mp hq
              exact hm (k0, v0) (List.mem_cons_self _ _)
          · rw [List.map_append]
            refine List.Nodup.append hnd (List.nodup_singleton _) ?_
            intro a ha hb
            simp only [List.map_cons, List.map_nil, List.mem_singleton] at hb
            subst hb
            exact hnotmem ha
          · exact hmtl

theorem SymbolTable.visibleFold_inv (t : SymbolTable) (hk : t.KeyedByName) (L : List Nat)
    (acc : List (String × SymbolInfo))
    (hval : ∀ q ∈ acc, (q.2 : SymbolInfo).name = q.1)
    (hnd : (acc.map Prod.fst).Nodup) :
    (∀ q ∈ L.foldl (SymbolTable.visibleStep t) acc, (q.2 : SymbolInfo).name = q.1) ∧
      ((L.foldl (SymbolTable.visibleStep t) acc).map Prod.fst).Nodup := by
  induction L generalizing acc with
  | nil => exact ⟨hval, hnd⟩
  | cons sc L ih =>
      rw [List.foldl_cons]
      cases hsc : dictLookup t.symbols sc with
      | none =>
          rw [SymbolTable.visibleStep, hsc]
          exact ih acc hval hnd
      | some m =>
          rw [SymbolTable.visibleStep, hsc]
          have hm : ∀ q ∈ m, (q.2 : SymbolInfo).name = q.1 :=
            hk (sc, m) (dictLookup_mem _ _ _ hsc)
          obtain ⟨h1, h2⟩ := SymbolTable.visibleInsertScope_inv acc m hval hnd hm
          exact ih _ h1 h2

/-- Formalization of the claim's "the entry from the innermost scope in
S that defines that name": the first scope of `reversed(scope_stack)`
whose symbol dict contains the name. -/
def innermostDefinition (t : SymbolTable) (scopeStack : List Nat) (name : String) :
    Option SymbolInfo :=
  scopeStack.reverse.findSome? fun scopeId =>
    (dictLookup t.symbols scopeId).bind fun m => dictLookup m name

/-- Claim C7: `get_visible_symbols(S)` returns a list sorted by symbol
name with at most one entry per name, and an entry named `n` is in the
result exactly when it is the record of the innermost scope in `S` that
defines `n` (inner scopes shadow outer ones).  In particular, when
scopes `0` and `N` (`S = [0, N]`) both define `x`, exactly one entry
named `x` is returned and it comes from scope `N`. -/
theorem C7_get_visible_symbols_shadowing (t : SymbolTable) (scopeStack : List Nat)
    (hk : t.KeyedByName) :
    List.Sorted (· ≤ ·) ((t.getVisibleSymbols scopeStack).map SymbolInfo.name)
  ∧ ((t.getVisibleSymbols scopeStack).map SymbolInfo.name).Nodup
  ∧ ∀ name r, (r ∈ t.getVisibleSymbols scopeStack ∧ r.name = name) ↔
      innermostDefinition t scopeStack name = some r := by
  obtain ⟨hval, hnd⟩ := SymbolTable.visibleFold_inv t hk scopeStack.reverse []
    (by simp) (by simp)
  have hsortDef : t.getVisibleSymbols scopeStack =
      List.insertionSort SymbolTable.nameLe
        ((scopeStack.reverse.foldl (SymbolTable.visibleStep t) []).map Prod.snd) := rfl
  refine ⟨?_, ?_, ?_⟩
  · rw [hsortDef]
    have hs := List.sorted_insertionSort SymbolTable.nameLe
      ((scopeStack.reverse.foldl (SymbolTable.visibleStep t) []).map Prod.snd)
    exact List.Pairwise.map SymbolInfo.name (fun a b h => h) hs
  · rw [hsortDef]
    have hperm : ((List.insertionSort SymbolTable.nameLe
        ((scopeStack.reverse.foldl (SymbolTable.visibleStep t) []).map Prod.snd)).map
          SymbolInfo.name).Perm
        (((scopeStack.reverse.foldl (SymbolTable.visibleStep t) []).map Prod.snd).map
          SymbolInfo.name) :=
      (List.perm_insertionSort SymbolTable.nameLe _).map SymbolInfo.name
    rw [hperm.nodup_iff]
    have hmapEq : ((scopeStack.reverse.foldl (SymbolTable.visibleStep t) []).map Prod.snd).map
        SymbolInfo.name = (scopeStack.reverse.foldl (SymbolTable.visibleStep t) []).map
          Prod.fst := by
      rw [List.map_map]
      exact List.map_congr_left fun q hq => hval q hq
    rw [hmapEq]
    exact hnd
  · intro name r
    constructor
    · rintro ⟨hmem, hname⟩
      rw [hsortDef] at hmem
      have hmem2 : r ∈ (scopeStack.reverse.foldl (SymbolTable.visibleStep t) []).map
          Prod.snd := (List.mem_insertionSort SymbolTable.nameLe).mp hmem
      obtain ⟨q, hq, hq2⟩ := List.mem_map.mp hmem2
      have hkey : (q.2 : SymbolInfo).name = q.1 := hval q hq
      have hq1 : q.1 = name := by rw [← hkey, hq2, hname]
      have hlook : dictLookup (scopeStack.reverse.foldl (SymbolTable.visibleStep t) []) name
          = some r := by
        rw [← hq1, ← hq2]
        exact dictLookup_of_mem_nodup _ q.1 q.2 hnd (by simpa using hq)
      have hfold := SymbolTable.visibleFold_lookup t scopeStack.reverse [] name
      rw [hlook] at hfold
      rw [innermostDefinition]
      rw [show dictLookup ([] : List (String × SymbolInfo)) name = none from rfl] at hfold
      exact hfold.symm
    · intro hinner
      have hfold := SymbolTable.visibleFold_lookup t scopeStack.reverse [] name
      rw [show dictLookup ([] : List (String × SymbolInfo)) name = none from rfl] at hfold
      rw [innermostDefinition] at hinner
      have hlookup : dictLookup (scopeStack.reverse.foldl (SymbolTable.visibleStep t) []) name
          = some r := by rw [hfold]; exact hinner
      have hmem : (name, r) ∈ scopeStack.reverse.foldl (SymbolTable.visibleStep t) [] :=
        dictLookup_mem _ _ _ hlookup
      refine ⟨?_, ?_⟩
      · rw [hsortDef]
        exact (List.mem_insertionSort SymbolTable.nameLe).mpr
          (List.mem_map.mpr ⟨(name, r), hmem, rfl⟩)
      · exact hval (name, r) hmem

/-- Witness for `C7_get_visible_symbols_shadowing`: scopes 0 and 4 both
define `x`; the visible entry named `x` is the one from scope 4. -/
theorem C7_get_visible_symbols_witness :
    (⟨"x", "param", 4, 3, []⟩ : SymbolInfo) ∈
        (SymbolTable.mk [(0, [("x", ⟨"x", "variable", 0, 1, []⟩),
                              ("y", ⟨"y", "variable", 0, 2, []⟩)]),
                         (4, [("x", ⟨"x", "param", 4, 3, []⟩)])]).getVisibleSymbols [0, 4]
  ∧ (⟨"x", "param", 4, 3, []⟩ : SymbolInfo).name = "x" :=
  ((C7_get_visible_symbols_shadowing
      (SymbolTable.mk [(0, [("x", ⟨"x", "variable", 0, 1, []⟩),
                            ("y", ⟨"y", "variable", 0, 2, []⟩)]),
                       (4, [("x", ⟨"x", "param", 4, 3, []⟩)])]) [0, 4]
      (by unfold SymbolTable.KeyedByName; decide)).2.2 "x"
      ⟨"x", "param", 4, 3, []⟩).mpr (by decide)

/-! ## Scope-stack invariants (claims C4 and C10)

The stack is stored top-first, so "strictly increasing from bottom to
top" is `Pairwise (fun a b => b < a)` and the Python bottom is
`getLast?`. -/

/-- Invariant of the analyzer's scope stack: non-empty, sentinel 0 at
the bottom, strictly increasing from bottom to top, and `current_scope`
is the stack top. -/
def ScopeStackInv (s : PassState) : Prop :=
  s.scopeStack ≠ [] ∧ s.scopeStack.getLast? = some 0 ∧
    s.scopeStack.Pairwise (fun a b => b < a) ∧
    s.currentScope = s.scopeStack.headD 0

theorem dropWhile_keeps_last_zero (p : Nat → Bool) (hp : p 0 = false) (l : List Nat)
    (hlast : l.getLast? = some 0) :
    l.dropWhile p ≠ [] ∧ (l.dropWhile p).getLast? = some 0 := by
  induction l with
  | nil => simp at hlast
  | cons x t ih =>
      cases t with
      | nil =>
          simp only [List.getLast?_singleton, Option.some.injEq] at hlast
          subst hlast
          rw [List.dropWhile_cons, hp]
          simp
      | cons y t' =>
          rw [List.getLast?_cons_cons] at hlast
          rw [List.dropWhile_cons]
          cases hx : p x with
          | true =>
              simp only [if_true]
              exact ih hlast
          | false =>
              simp only [Bool.false_eq_true, if_false]
              exact ⟨by simp, by rw [List.getLast?_cons_cons]; exact hlast⟩

theorem getLast?_cons_of_ne_nil {α : Type} (x : α) (l : List α) (h : l ≠ []) :
    (x :: l).getLast? = l.getLast? := by
  cases l with
  | nil => exact absurd rfl h
  | cons y t => rw [List.getLast?_cons_cons]

theorem pairwise_gt_cons (v : Nat) (l : List Nat)
    (hp : l.Pairwise (fun a b => b < a)) (hv : ∀ x ∈ l, x < v) :
    (v :: l).Pairwise (fun a b => b < a) :=
  List.pairwise_cons.mpr ⟨hv, hp⟩

theorem pairwise_gt_head_max (l : List Nat) (hp : l.Pairwise (fun a b => b < a)) :
    ∀ x ∈ l, x ≤ l.headD 0 := by
  cases l with
  | nil => simp
  | cons h t =>
      intro x hx
      rcases List.mem_cons.mp hx with rfl | hx
      · simp
      · exact le_of_lt (List.rel_of_pairwise_cons hp hx)

theorem indentPop_inv (stack : List Nat) (currentIndent : Nat)
    (hne : stack ≠ []) (hlast : stack.getLast? = some 0)
    (hp : stack.Pairwise (fun a b => b < a)) :
    indentPop stack currentIndent ≠ [] ∧
      (indentPop stack currentIndent).getLast? = some 0 ∧
      (indentPop stack currentIndent).Pairwise (fun a b => b < a) := by
  rw [indentPop]
  have h0 : (fun top : Nat => decide (currentIndent < top)) 0 = false := by simp
  obtain ⟨h1, h2⟩ :=
    dropWhile_keeps_last_zero (fun top => decide (currentIndent < top)) h0 stack hlast
  exact ⟨h1, h2, hp.sublist (List.dropWhile_sublist _)⟩

theorem applyIndentTrigger_inv (P : Profile) (lineText : String) (currentIndent : Nat)
    (stack : List Nat) (hne : stack ≠ []) (hlast : stack.getLast? = some 0)
    (hp : stack.Pairwise (fun a b => b < a)) :
    applyIndentTrigger P lineText currentIndent stack ≠ [] ∧
      (applyIndentTrigger P lineText currentIndent stack).getLast? = some 0 ∧
      (applyIndentTrigger P lineText currentIndent stack).Pairwise (fun a b => b < a) := by
  rw [applyIndentTrigger]
  by_cases ht : triggerAny P.indentTriggers lineText
  · simp only [ht, if_true]
    by_cases hgt : currentIndent + P.indent.length > currentIndent
    · simp only [hgt, if_true]
      cases stack with
      | nil => exact absurd rfl hne
      | cons top rest =>
          by_cases htop : currentIndent + P.indent.length > top
          · simp only [htop, if_true]
            refine ⟨by simp, ?_, ?_⟩
            · rw [getLast?_cons_of_ne_nil _ _ (by simp)]
              exact hlast
            · refine pairwise_gt_cons _ _ hp ?_
              intro x hx
              rcases List.mem_cons.mp hx with rfl | hx
              · exact htop
              · exact lt_trans (List.rel_of_pairwise_cons hp hx) htop
          · simp only [htop, if_false]
            exact ⟨hne, hlast, hp⟩
    · simp only [hgt, if_false]
      exact ⟨hne, hlast, hp⟩
  · simp only [ht, if_false]
    exact ⟨hne, hlast, hp⟩

theorem applyDedentTrigger_inv (P : Profile) (lineText : String) (currentIndent : Nat)
    (stack : List Nat) (hne : stack ≠ []) (hlast : stack.getLast? = some 0)
    (hp : stack.Pairwise (fun a b => b < a)) :
    applyDedentTrigger P lineText currentIndent stack ≠ [] ∧
      (applyDedentTrigger P lineText currentIndent stack).getLast? = some 0 ∧
      (applyDedentTrigger P lineText currentIndent stack).Pairwise (fun a b => b < a) := by
  rw [applyDedentTrigger]
  by_cases ht : triggerAny P.dedentTriggers lineText
  · simp only [ht, if_true]
    by_cases hemp : (dedentPopLoop stack currentIndent).isEmpty
    · simp [hemp]
    · rw [if_neg hemp]
      have hne2 : dedentPopLoop stack currentIndent ≠ [] :=
        fun h => hemp (List.isEmpty_iff.mpr h)
      refine ⟨hne2, ?_, hp.sublist (List.dropWhile_sublist _)⟩
      rcases Nat.eq_zero_or_pos currentIndent with hz | hpos
      · exfalso
        apply hne2
        subst hz
        rw [dedentPopLoop]
        have : ∀ l : List Nat, l.dropWhile (fun top => decide (0 ≤ top)) = [] := by
          intro l
          induction l with
          | nil => rfl
          | cons x t ih => rw [List.dropWhile_cons]; simp [ih]
        exact this stack
      · have h0 : (fun top => decide (currentIndent ≤ top)) 0 = false := by
          simp
          omega
        exact (dropWhile_keeps_last_zero _ h0 stack hlast).2
  · simp only [ht, if_false]
    exact ⟨hne, hlast, hp⟩

theorem applyIndentPush_inv (currentIndent : Nat) (prevIndent : Int)
    (stack : List Nat) (hne : stack ≠ []) (hlast : stack.getLast? = some 0)
    (hp : stack.Pairwise (fun a b => b < a)) :
    applyIndentPush currentIndent prevIndent stack ≠ [] ∧
      (applyIndentPush currentIndent prevIndent stack).getLast? = some 0 ∧
      (applyIndentPush currentIndent prevIndent stack).Pairwise (fun a b => b < a) := by
  rw [applyIndentPush]
  by_cases h1 : currentIndent > stack.headD 0
  · rw [if_pos h1]
    by_cases h2 : (currentIndent : Int) > prevIndent ∧ currentIndent > stack.headD 0
    · rw [if_pos h2]
      refine ⟨by simp, ?_, ?_⟩
      · rw [getLast?_cons_of_ne_nil _ _ hne]
        exact hlast
      · refine pairwise_gt_cons _ _ hp ?_
        intro x hx
        exact lt_of_le_of_lt (pairwise_gt_head_max stack hp x hx) h1
    · rw [if_neg h2]
      exact ⟨hne, hlast, hp⟩
  · rw [if_neg h1]
    exact ⟨hne, hlast, hp⟩

theorem analyzeLineScope_scopeStackInv (P : Profile) (s : PassState) (lineNum : Nat)
    (lineText : String) (hinv : ScopeStackInv s) :
    ScopeStackInv (analyzeLineScope P s lineNum lineText).1 := by
  obtain ⟨hne, hlast, hp, hcur⟩ := hinv
  rw [analyzeLineScope]
  by_cases hb : isBlankLine lineText
  · rw [if_pos hb]
    exact ⟨hne, hlast, hp, hcur⟩
  · rw [if_neg hb]
    obtain ⟨h1a, h1b, h1c⟩ := indentPop_inv s.scopeStack (indentOf lineText) hne hlast hp
    obtain ⟨h2a, h2b, h2c⟩ :=
      applyIndentTrigger_inv P lineText (indentOf lineText) _ h1a h1b h1c
    obtain ⟨h3a, h3b, h3c⟩ :=
      applyDedentTrigger_inv P lineText (indentOf lineText) _ h2a h2b h2c
    obtain ⟨h4a, h4b, h4c⟩ := applyIndentPush_inv (indentOf lineText)
      (((dictLookup s.lineStates ((lineNum : Int) - 1)).map
        fun st => (st.indent : Int)).getD (-1)) _ h3a h3b h3c
    have hemp : (applyIndentPush (indentOf lineText)
        (((dictLookup s.lineStates ((lineNum : Int) - 1)).map
          fun st => (st.indent : Int)).getD (-1))
        (applyDedentTrigger P lineText (indentOf lineText)
          (applyIndentTrigger P lineText (indentOf lineText)
            (indentPop s.scopeStack (indentOf lineText))))).isEmpty = false := by
      rw [List.isEmpty_eq_false]
      exact h4a
    dsimp only
    rw [hemp]
    simp only [Bool.false_eq_true, if_false]
    exact ⟨h4a, h4b, h4c, rfl⟩

theorem processLine_scopeStackInv (P : Profile) (s : PassState) (lineNum : Nat)
    (lineText : String) (offset : Nat) (hinv : ScopeStackInv s) :
    ScopeStackInv (processLine P s lineNum lineText offset) :=
  analyzeLineScope_scopeStackInv P s lineNum lineText hinv

/-- Claim C10: starting from the reset state (stack `[0]`), processing
any line of any document keeps the scope stack non-empty with bottom
element 0 and strictly increasing from bottom to top (stored top-first,
this is `Pairwise (fun a b => b < a)`); the current scope is the stack
top, hence the maximum element, and every newly pushed scope id is
strictly greater than all ids below it (that is what the `Pairwise`
invariant of the freshly produced stack expresses). -/
theorem C10_scope_stack_monotonic (P : Profile) :
    ScopeStackInv (toPass (initAnalyzer P))
  ∧ (∀ (s : PassState) (lineNum : Nat) (lineText : String) (offset : Nat),
      ScopeStackInv s → ScopeStackInv (processLine P s lineNum lineText offset))
  ∧ (∀ s : PassState, ScopeStackInv s → ∀ x ∈ s.scopeStack, x ≤ s.currentScope) := by
  refine ⟨⟨List.cons_ne_nil 0 [], rfl,
    List.pairwise_cons.mpr ⟨fun b hb => absurd hb (List.not_mem_nil b), List.Pairwise.nil⟩,
    rfl⟩, ?_, ?_⟩
  · intro s lineNum lineText offset hinv
    exact processLine_scopeStackInv P s lineNum lineText offset hinv
  · intro s hinv x hx
    obtain ⟨-, -, hp, hcur⟩ := hinv
    rw [hcur]
    exact pairwise_gt_head_max s.scopeStack hp x hx

/-- Profile with a catch-all dedent trigger used to exercise the scope
stack theorems on concrete input. -/
def dedentOnlyProfile : Profile :=
  { language := "dedent-only"
    comment := none
    blockComment := [none, none]
    indent := "    "
    indentTriggers := []
    dedentTriggers := [some fun _ => true]
    definitions := []
    symbolPatterns := []
    syntaxTokens := []
    suggestionsCategorized := [] }

/-- Witness for `C10_scope_stack_monotonic`: one concrete line processed
from the reset state. -/
theorem C10_scope_stack_witness :
    ScopeStackInv (processLine dedentOnlyProfile (toPass (initAnalyzer dedentOnlyProfile))
      0 "\x7d" 0) :=
  (C10_scope_stack_monotonic dedentOnlyProfile).2.1 (toPass (initAnalyzer dedentOnlyProfile))
    0 "\x7d" 0 (C10_scope_stack_monotonic dedentOnlyProfile).1

/-- Claim C4 counterexample: the claim says the pop operations performed
while processing a line never remove the sentinel scope 0.  But on a
non-blank line of indent 0 whose text matches a dedent trigger, the
trigger-driven pop loop (`while self.scope_stack and current_indent <=
self.scope_stack[-1]: pop`) pops the sentinel 0 itself and leaves the
stack empty — `dedentPops` is the list of elements that loop removes
from the stack it operates on (the stack after the indentation-driven
pop and the indent-trigger push).  The code then re-appends 0 on the
next line (`if not self.scope_stack: append(0)`). -/
theorem C4_counterexample :
    ¬ (∀ (P : Profile) (s : PassState) (lineNum : Nat) (lineText : String),
        ScopeStackInv s →
        triggerAny P.dedentTriggers lineText = true →
        isBlankLine lineText = false →
        0 ∉ dedentPops
          (applyIndentTrigger P lineText (indentOf lineText)
            (indentPop s.scopeStack (indentOf lineText)))
          (indentOf lineText)) := by
  intro h
  have hmem : 0 ∈ dedentPops
      (applyIndentTrigger dedentOnlyProfile "\x7d" (indentOf "\x7d")
        (indentPop (toPass (initAnalyzer dedentOnlyProfile)).scopeStack (indentOf "\x7d")))
      (indentOf "\x7d") := by decide
  exact h dedentOnlyProfile (toPass (initAnalyzer dedentOnlyProfile)) 0 "\x7d"
    ⟨by decide, rfl, by decide, rfl⟩ rfl (by decide) hmem

/-- Claim C4, amended: recorded scope values are natural numbers (never
below 0); the indentation-driven pop never removes the sentinel 0 (its
condition `current_indent < top` is false at `top = 0`); the
trigger-driven dedent may pop the sentinel when the line's indent is 0,
but the code immediately restores it, so after processing any line the
scope stack is again non-empty with bottom element 0. -/
theorem C4_scope_sentinel_amended (P : Profile) (s : PassState) (lineNum : Nat)
    (lineText : String) (offset : Nat) (hinv : ScopeStackInv s) :
    0 ∉ s.scopeStack.takeWhile (fun top => decide (indentOf lineText < top))
  ∧ (processLine P s lineNum lineText offset).scopeStack ≠ []
  ∧ (processLine P s lineNum lineText offset).scopeStack.getLast? = some 0 := by
  have hproc := processLine_scopeStackInv P s lineNum lineText offset hinv
  refine ⟨?_, hproc.1, hproc.2.1⟩
  intro hmem
  have := List.mem_takeWhile_imp hmem
  simp at this

/-- Witness for `C4_scope_sentinel_amended` at the counterexample input:
the dedent-trigger line `"\x7d"` at indent 0. -/
theorem C4_scope_sentinel_witness :
    0 ∉ (toPass (initAnalyzer dedentOnlyProfile)).scopeStack.takeWhile
        (fun top => decide (indentOf "\x7d" < top))
  ∧ (processLine dedentOnlyProfile (toPass (initAnalyzer dedentOnlyProfile))
      0 "\x7d" 0).scopeStack ≠ []
  ∧ (processLine dedentOnlyProfile (toPass (initAnalyzer dedentOnlyProfile))
      0 "\x7d" 0).scopeStack.getLast? = some 0 :=
  C4_scope_sentinel_amended dedentOnlyProfile (toPass (initAnalyzer dedentOnlyProfile))
    0 "\x7d" 0 ⟨by decide, rfl, by decide, rfl⟩

/-! ## Claim C8: blank lines -/

/-- Soundness property of real regular expressions that the abstract
definition matchers must satisfy for blank lines: a capture group of a
match on the empty string can only be absent or empty (a captured
substring of `""` is `""`). -/
def DefinitionGroupsOnEmptyAreBlank (P : Profile) : Prop :=
  ∀ constructType f, (constructType, some f) ∈ P.definitions →
    ∀ m, f "" = some m → ∀ g ∈ m, g = none ∨ g = some ""

theorem isDigitStr_empty : isDigitStr "" = false := rfl

theorem pyGroup_blank (m : MatchRes) (hm : ∀ g ∈ m, g = none ∨ g = some "") (i : Nat) :
    pyGroup m i = none ∨ pyGroup m i = some "" := by
  rw [pyGroup]
  cases hg : m[i - 1]? with
  | none => exact Or.inl rfl
  | some g =>
      have hmem : g ∈ m := by
        obtain ⟨hlt, rfl⟩ := List.getElem?_eq_some_iff.mp hg
        exact List.getElem_mem hlt
      rcases hm g hmem with rfl | rfl
      · exact Or.inl rfl
      · exact Or.inr rfl

theorem defSymbolName_blank (constructType : String) (m : MatchRes)
    (hm : ∀ g ∈ m, g = none ∨ g = some "") :
    defSymbolName constructType m = none ∨ defSymbolName constructType m = some "" := by
  rcases pyGroup_blank m hm 1 with h | h <;>
    by_cases cA : constructType ∈ ["function", "method", "class", "interface", "struct",
      "enum"] <;>
      by_cases cB : constructType = "variable_assignment" <;>
        simp [defSymbolName, h, cA, cB, isDigitStr_empty]

theorem defParamsStr_blank (constructType : String) (m : MatchRes)
    (hm : ∀ g ∈ m, g = none ∨ g = some "") :
    defParamsStr constructType m = none ∨ defParamsStr constructType m = some "" := by
  rcases pyGroup_blank m hm 1 with h1 | h1 <;>
    rcases pyGroup_blank m hm 2 with h2 | h2 <;>
      by_cases cF : constructType ∈ ["function", "method"] <;>
        by_cases cL : constructType = "lambda" <;>
          by_cases cR : constructType = "arrow" <;>
            by_cases l1 : m.length ≥ 1 <;>
              by_cases l2 : m.length ≥ 2 <;>
                simp [defParamsStr, h1, h2, cF, cL, cR, l1, l2]

theorem handleDefinition_blank_ctx (P : Profile) (lineNum : Nat) (constructType : String)
    (m : MatchRes) (scopeId : Nat) (ctx : Ctx) (t : SymbolTable)
    (hm : ∀ g ∈ m, g = none ∨ g = some "") :
    (handleDefinition P lineNum constructType m scopeId ctx t).1 = ctx := by
  rcases defSymbolName_blank constructType m hm with hs | hs <;>
    rcases defParamsStr_blank constructType m hm with hp2 | hp2 <;>
      simp [handleDefinition, hs, hp2]

theorem dropWhile_head_false {α : Type} (p : α → Bool) (l : List α) (x : α) (t : List α)
    (h : l.dropWhile p = x :: t) : p x = false := by
  induction l with
  | nil => simp at h
  | cons c cs ih =>
      rw [List.dropWhile_cons] at h
      by_cases hc : p c
      · rw [if_pos hc] at h
        exact ih h
      · rw [if_neg hc] at h
        obtain ⟨rfl, -⟩ := List.cons.inj h
        simpa using hc

theorem lstrip_of_blank (s : String) (h : isBlankLine s = true) : lstrip s = "" := by
  rw [isBlankLine] at h
  have h2 : pystrip s = "" := of_decide_eq_true h
  rw [pystrip] at h2
  have h3 : ((s.toList.dropWhile Char.isWhitespace).reverse.dropWhile
      Char.isWhitespace).reverse = [] := congrArg String.data h2
  rw [List.reverse_eq_nil_iff] at h3
  have hall := List.dropWhile_eq_nil_iff.mp h3
  rw [lstrip]
  cases hl : s.toList.dropWhile Char.isWhitespace with
  | nil => rfl
  | cons x t =>
      have hx : Char.isWhitespace x = false := dropWhile_head_false _ _ _ _ hl
      have hxin : x ∈ (s.toList.dropWhile Char.isWhitespace).reverse := by
        rw [hl]
        simp
      have := hall x hxin
      rw [hx] at this
      simp at this

theorem analyzeConstructs_blank_ctx (P : Profile) (lineNum : Nat) (lineText : String)
    (scopeId : Nat) (ctx : Ctx) (t : SymbolTable)
    (hsafe : DefinitionGroupsOnEmptyAreBlank P) (hstr : lstrip lineText = "") :
    (analyzeConstructs P lineNum lineText scopeId ctx t).1 = ctx := by
  rw [analyzeConstructs]
  dsimp only
  rw [hstr]
  have hfold : ∀ (L : List String) (acc : Ctx × SymbolTable),
      (L.foldl (fun (acc : Ctx × SymbolTable) constructType =>
        match dictLookup P.definitions constructType with
        | some (some pattern) =>
            match pattern "" with
            | some m => handleDefinition P lineNum constructType m scopeId acc.1 acc.2
            | none => acc
        | _ => acc) acc).1 = acc.1 := by
    intro L
    induction L with
    | nil => intro acc; rfl
    | cons ct L ih =>
        intro acc
        rw [List.foldl_cons, ih]
        cases hd : dictLookup P.definitions ct with
        | none => simp
        | some pat =>
            cases pat with
            | none => simp
            | some pattern =>
                cases hp : pattern "" with
                | none => simp [hp]
                | some m =>
                    simp only [hp]
                    exact handleDefinition_blank_ctx P lineNum ct m scopeId acc.1 acc.2
                      (hsafe ct pattern (dictLookup_mem _ _ _ hd) m hp)
  exact hfold definitionOrder (ctx, t)

/-- Claim C8: for a blank / whitespace-only line, the recorded LineState
carries the previous line's recorded scope, and processing the line
leaves the scope stack and the current-function / current-class context
exactly as they were.  The `hsafe` hypothesis states the regular
expression fact the abstract matchers must satisfy: a capture of a match
on the empty string is absent or empty. -/
theorem C8_blank_line_frame (P : Profile) (s : PassState) (lineNum : Nat)
    (lineText : String) (offset : Nat)
    (hsafe : DefinitionGroupsOnEmptyAreBlank P) (hblank : isBlankLine lineText = true) :
    (processLine P s lineNum lineText offset).scopeStack = s.scopeStack
  ∧ (processLine P s lineNum lineText offset).ctx = s.ctx
  ∧ dictLookup (processLine P s lineNum lineText offset).lineStates (lineNum : Int) =
      some ⟨indentOf lineText,
        ((dictLookup s.lineStates ((lineNum : Int) - 1)).getD ⟨0, 0⟩).scope⟩ := by
  have hstr := lstrip_of_blank lineText hblank
  rw [processLine, analyzeLineScope]
  rw [if_pos hblank]
  dsimp only
  refine ⟨rfl, ?_, ?_⟩
  · exact analyzeConstructs_blank_ctx P lineNum lineText _ s.ctx s.table hsafe hstr
  · exact dictLookup_insert_self s.lineStates (lineNum : Int) _

/-- Profile used by the blank-line witness. -/
def blankWitnessProfile : Profile :=
  { language := "blank-witness"
    comment := some "#"
    blockComment := [none, none]
    indent := "    "
    indentTriggers := [some fun s => s.endsWith ":"]
    dedentTriggers := []
    definitions := [("function", none)]
    symbolPatterns := []
    syntaxTokens := []
    suggestionsCategorized := [] }

/-- Witness for `C8_blank_line_frame` on the whitespace-only line `"   "`. -/
theorem C8_blank_line_witness :
    (processLine blankWitnessProfile (toPass (initAnalyzer blankWitnessProfile))
        0 "   " 0).scopeStack = (toPass (initAnalyzer blankWitnessProfile)).scopeStack
  ∧ (processLine blankWitnessProfile (toPass (initAnalyzer blankWitnessProfile))
        0 "   " 0).ctx = (toPass (initAnalyzer blankWitnessProfile)).ctx
  ∧ dictLookup (processLine blankWitnessProfile (toPass (initAnalyzer blankWitnessProfile))
        0 "   " 0).lineStates ((0 : Nat) : Int) =
      some ⟨indentOf "   ",
        ((dictLookup (toPass (initAnalyzer blankWitnessProfile)).lineStates
          (((0 : Nat) : Int) - 1)).getD ⟨0, 0⟩).scope⟩ :=
  C8_blank_line_frame blankWitnessProfile (toPass (initAnalyzer blankWitnessProfile))
    0 "   " 0
    (by
      intro ct f hmem m hm g hg
      have h2 := List.mem_singleton.mp hmem
      have h3 : (some f : Option (String → Option MatchRes)) = none := congrArg Prod.snd h2
      exact absurd h3 (by simp))
    (by decide)

/-! ## Claims C1 and C2: analyze_text

`_full_analysis` calls `_reset_state`, and `_reset_state` clears
`_current_line_hashes` and the whole previous-analysis snapshot — both
of which `analyze_text` had just filled in.  Consequently every state
the analyzer can actually reach has empty `_current_line_hashes`
(`lineHashes = []`), the `_should_attempt_incremental` guard
`if not self._prev_line_hashes` is always taken on the next call, and
every `analyze_text` call performs a full analysis whose result depends
only on the profile and the text. -/

/-- The analyzer state at the start of a full analysis of `text`. -/
def cleanState (P : Profile) (text : String) : Analyzer :=
  { initAnalyzer P with currentText := some text }

/-- The result of any `analyze_text(text)` call made from a reachable
state: a full analysis of `text` from the reset state. -/
def fullResult (P : Profile) (text : String) : Analyzer :=
  finalizeAnalysis (fullAnalysisRun (cleanState P text) text)

theorem shouldAttempt_empty_prev (curHashes currentLines prevLines : List String) :
    shouldAttemptIncremental curHashes [] currentLines prevLines = false := by
  rw [shouldAttemptIncremental]
  simp

theorem analyzeText_of_no_hashes (hash : String → String) (a : Analyzer) (text : String)
    (ha : a.lineHashes = []) :
    analyzeText hash a text = fullResult a.profile text := by
  rw [analyzeText]
  cases hc : a.currentText with
  | none => rfl
  | some prevText =>
      dsimp only
      rw [ha, shouldAttempt_empty_prev]
      simp only [Bool.false_eq_true, if_false]
      rfl

theorem fullResult_lineHashes (P : Profile) (text : String) :
    (fullResult P text).lineHashes = [] := by
  rw [fullResult, finalizeAnalysis]
  cases (fullAnalysisRun (cleanState P text) text).scopeStack <;> rfl

theorem fullResult_profile (P : Profile) (text : String) :
    (fullResult P text).profile = P := by
  rw [fullResult, finalizeAnalysis]
  cases (fullAnalysisRun (cleanState P text) text).scopeStack <;> rfl

/-- Claim C2: calling `analyze_text(text)` twice in a row with identical
text (from any reachable analyzer state — all reachable states have
empty `_current_line_hashes`, see above) leaves
`get_detected_symbols()`, `get_syntax_token_ranges()`, and
`get_suggestions(C)` for every exclusion set `C` returning exactly what
they returned after the first call. -/
theorem C2_analyze_text_idempotent (hash : String → String) (a : Analyzer) (text : String)
    (excludeCategories : Option (List String)) (ha : a.lineHashes = []) :
    getSyntaxTokenRanges (analyzeText hash (analyzeText hash a text) text) =
      getSyntaxTokenRanges (analyzeText hash a text)
  ∧ getDetectedSymbols (analyzeText hash (analyzeText hash a text) text) =
      getDetectedSymbols (analyzeText hash a text)
  ∧ getSuggestions (analyzeText hash (analyzeText hash a text) text) excludeCategories =
      getSuggestions (analyzeText hash a text) excludeCategories := by
  have h1 := analyzeText_of_no_hashes hash a text ha
  have h2 : (analyzeText hash a text).lineHashes = [] := by
    rw [h1]
    exact fullResult_lineHashes a.profile text
  have h4 : (analyzeText hash a text).profile = a.profile := by
    rw [h1]
    exact fullResult_profile a.profile text
  have h3 := analyzeText_of_no_hashes hash (analyzeText hash a text) text h2
  rw [h3, h4, h1]
  exact ⟨rfl, rfl, rfl⟩

/-- Profile with concrete trigger/definition/token matchers used by the
analyze-level witnesses. -/
def analyzeWitnessProfile : Profile :=
  { language := "witness"
    comment := some "#"
    blockComment := [none, none]
    indent := "  "
    indentTriggers := [some fun s => s.endsWith ":"]
    dedentTriggers := []
    definitions := [("function", some fun s =>
      if s = "def f(a, b):" then some [some "f", some "a, b"] else none)]
    symbolPatterns := [("variable", some fun s =>
      if s = "v = 1" then some [some "v"] else none)]
    syntaxTokens := [("number", some fun s => if s.endsWith "1" then
      [(s.length - 1, s.length)] else [])]
    suggestionsCategorized := [("keywords", ["if", "else"]), ("operators", ["+"])] }

/-- Witness for `C2_analyze_text_idempotent` on a concrete two-line
program. -/
theorem C2_analyze_text_witness :
    getSyntaxTokenRanges (analyzeText (fun s => s)
        (analyzeText (fun s => s) (initAnalyzer analyzeWitnessProfile) "def f(a, b):\n  v = 1")
        "def f(a, b):\n  v = 1") =
      getSyntaxTokenRanges (analyzeText (fun s => s) (initAnalyzer analyzeWitnessProfile)
        "def f(a, b):\n  v = 1")
  ∧ getDetectedSymbols (analyzeText (fun s => s)
        (analyzeText (fun s => s) (initAnalyzer analyzeWitnessProfile) "def f(a, b):\n  v = 1")
        "def f(a, b):\n  v = 1") =
      getDetectedSymbols (analyzeText (fun s => s) (initAnalyzer analyzeWitnessProfile)
        "def f(a, b):\n  v = 1")
  ∧ getSuggestions (analyzeText (fun s => s)
        (analyzeText (fun s => s) (initAnalyzer analyzeWitnessProfile) "def f(a, b):\n  v = 1")
        "def f(a, b):\n  v = 1") (some ["operators"]) =
      getSuggestions (analyzeText (fun s => s) (initAnalyzer analyzeWitnessProfile)
        "def f(a, b):\n  v = 1") (some ["operators"]) :=
  C2_analyze_text_idempotent (fun s => s) (initAnalyzer analyzeWitnessProfile)
    "def f(a, b):\n  v = 1" (some ["operators"]) rfl

/-- Claim C1: after `analyze_text(T1)` then `analyze_text(T2)` on an
analyzer, with T2 within the incremental thresholds relative to T1 (both
changed-line ratios `≤ 0.4` and the line-count delta ratio `≤ 0.15`),
the second call's results agree with a fresh full analysis of T2 on a
brand-new analyzer: `get_syntax_token_ranges()` is byte-for-byte equal
and the set of detected symbol names contains the fresh analysis's set.
(In the code the second call in fact takes the full-analysis path — the
snapshot was wiped by `_reset_state` — so the agreement holds with
equality, for any T1, T2; the threshold hypotheses are the claim's.) -/
theorem C1_small_edit_agrees_with_full (P : Profile) (hash : String → String) (T1 T2 : String)
    (hcur : changeRatioCurrent ((pySplitLines T2).map hash) ((pySplitLines T1).map hash)
        (pySplitLines T2) ≤ 2/5)
    (hprev : changeRatioPrevious ((pySplitLines T2).map hash) ((pySplitLines T1).map hash)
        (pySplitLines T1) ≤ 2/5)
    (hlen : lengthChangeRatio (pySplitLines T2) (pySplitLines T1) ≤ 3/20) :
    getSyntaxTokenRanges (analyzeText hash (analyzeText hash (initAnalyzer P) T1) T2) =
      getSyntaxTokenRanges (analyzeText hash (initAnalyzer P) T2)
  ∧ ∀ n, n ∈ (getDetectedSymbols (analyzeText hash (initAnalyzer P) T2)).map SymbolInfo.name →
      n ∈ (getDetectedSymbols
        (analyzeText hash (analyzeText hash (initAnalyzer P) T1) T2)).map SymbolInfo.name := by
  have h1 := analyzeText_of_no_hashes hash (initAnalyzer P) T1 rfl
  have h2 : (analyzeText hash (initAnalyzer P) T1).lineHashes = [] := by
    rw [h1]
    exact fullResult_lineHashes P T1
  have h4 : (analyzeText hash (initAnalyzer P) T1).profile = P := by
    rw [h1]
    exact fullResult_profile P T1
  have h3 := analyzeText_of_no_hashes hash (analyzeText hash (initAnalyzer P) T1) T2 h2
  have h5 := analyzeText_of_no_hashes hash (initAnalyzer P) T2 rfl
  rw [h3, h4, h5]
  exact ⟨rfl, fun n hn => hn⟩

/-- Witness for `C1_small_edit_agrees_with_full`: a three-line document
with one changed middle line (changed-line ratios `1/3`, line-count
delta `0`). -/
theorem C1_small_edit_witness :
    getSyntaxTokenRanges (analyzeText (fun s => s)
        (analyzeText (fun s => s) (initAnalyzer analyzeWitnessProfile) "a\nb\nc") "a\nx\nc") =
      getSyntaxTokenRanges (analyzeText (fun s => s) (initAnalyzer analyzeWitnessProfile)
        "a\nx\nc")
  ∧ ∀ n, n ∈ (getDetectedSymbols (analyzeText (fun s => s)
        (initAnalyzer analyzeWitnessProfile) "a\nx\nc")).map SymbolInfo.name →
      n ∈ (getDetectedSymbols (analyzeText (fun s => s)
        (analyzeText (fun s => s) (initAnalyzer analyzeWitnessProfile) "a\nb\nc")
        "a\nx\nc")).map SymbolInfo.name :=
  C1_small_edit_agrees_with_full analyzeWitnessProfile (fun s => s) "a\nb\nc" "a\nx\nc"
    (by
      have hc : changedLineCount ((pySplitLines "a\nx\nc").map (fun s => s))
          ((pySplitLines "a\nb\nc").map (fun s => s)) (pySplitLines "a\nx\nc") = 1 := by decide
      have hl : orOne (pySplitLines "a\nx\nc").length = 3 := by decide
      rw [changeRatioCurrent, hc, hl]
      norm_num)
    (by
      have hc : changedLineCount ((pySplitLines "a\nb\nc").map (fun s => s))
          ((pySplitLines "a\nx\nc").map (fun s => s)) (pySplitLines "a\nb\nc") = 1 := by decide
      have hl : orOne (pySplitLines "a\nb\nc").length = 3 := by decide
      rw [changeRatioPrevious, hc, hl]
      norm_num)
    (by
      have habs : (((pySplitLines "a\nx\nc").length : Int) -
          ((pySplitLines "a\nb\nc").length : Int)).natAbs = 0 := by decide
      have hl : orOne (pySplitLines "a\nb\nc").length = 3 := by decide
      rw [lengthChangeRatio, habs, hl]
      norm_num)
